import Mathlib

/-!
Verification of the lab5 infix-expression calculator (`cs480lab5main.py`).

The Python source is shallowly embedded: Python `int` values become `Int`,
Python `Decimal` values become an explicit coefficient/exponent pair (the
representation `decimal.Decimal` itself uses), token lists become inductive
types, and Python exceptions become an explicit error type threaded through
`Except`.  Wall-clock state (`check_timeout`) is the one part of the source
that has no shallow embedding: the timeout guard reads `time.time()`, so in
this model it is the no-op it is on every fast evaluation, and
`TimeoutError`/`MemoryError` never arise.  Everything else follows the
source function by function.
-/

/-- Python exceptions that the pipeline can raise.  `valueError`,
`zeroDivisionError`, `overflowError`, `timeoutError` and `memoryError` are the
classes `calculate` catches.  `decimalOverflow` models `decimal.Overflow`,
which subclasses `ArithmeticError` but not `OverflowError`, so `calculate`
does not catch it.  `invalidOperation` models `decimal.InvalidOperation`
(caught only inside `pure_python_exp`).  `stopIteration`, `indexError` and
`typeError` model the structural exceptions `next`/`pop`/`iter` can raise;
`calculate` catches none of them.  `fuelExhausted` is a termination device for
the fuel-indexed recursions below; it never occurs at the fuel bounds used. -/
inductive PyExc where
  | valueError
  | zeroDivisionError
  | overflowError
  | timeoutError
  | memoryError
  | decimalOverflow
  | invalidOperation
  | stopIteration
  | indexError
  | typeError
  | fuelExhausted
deriving DecidableEq, Repr

/-- A `decimal.Decimal` value: coefficient times `10 ^ exponent`.  The model
tracks numeric values; it does not reproduce CPython's ideal-exponent
bookkeeping (trailing-zero placement), which never affects a numeric value. -/
structure Dec where
  c : Int
  e : Int
deriving DecidableEq, Repr

/-- `10 ^ k` on naturals (kernel-accelerated arithmetic). -/
def pow10 (k : Nat) : Nat := 10 ^ k

/-- Digit-count worker: divide by ten until a single digit remains.  The
fuel only bounds the recursion (`n` itself always suffices). -/
def decDigitsAux : Nat → Nat → Nat
  | 0, _ => 1
  | f + 1, n => if n < 10 then 1 else decDigitsAux f (n / 10) + 1

/-- Number of decimal digits of `n` (1 for `n = 0`), i.e. `log10 n + 1`. -/
def decDigits (n : Nat) : Nat := decDigitsAux n n

/-- Adjusted exponent of a `Dec`, as `decimal` defines it: the exponent of the
leading digit. -/
def decAdjExp (d : Dec) : Int := d.e + (decDigits d.c.natAbs : Int) - 1

/-- Round-half-even selection given a truncated quotient `q`, remainder `r`
and divisor `den` (the rounding mode of the default decimal context). -/
def halfEvenNat (q r den : Nat) : Nat :=
  if 2 * r < den then q
  else if den < 2 * r then q + 1
  else if q % 2 = 0 then q else q + 1

/-- `decimal`'s coefficient rounding to the default context precision of 28
significant digits (the `_fix` step after an exact add/subtract/multiply). -/
def decFix (c : Int) (e : Int) : Dec :=
  let n := c.natAbs
  if n < pow10 28 then ⟨c, e⟩
  else
    let sh := decDigits n - 28
    let d := pow10 sh
    let q := halfEvenNat (n / d) (n % d) d
    if q < pow10 28 then ⟨Int.sign c * (q : Int), e + (sh : Int)⟩
    else ⟨Int.sign c * ((q / 10 : Nat) : Int), e + (sh : Int) + 1⟩

/-- The default context's `Overflow` trap: adjusted exponent above
`Emax = 999999` raises `decimal.Overflow`.  (The `Underflow` signal is not
trapped by default and is not modelled; no claim involves subnormal values.) -/
def decTrap (d : Dec) : Except PyExc Dec :=
  if d.c ≠ 0 ∧ 999999 < decAdjExp d then .error .decimalOverflow else .ok d

/-- `Decimal` addition under the default context: exact sum, then rounding
and the overflow trap. -/
def decAdd (a b : Dec) : Except PyExc Dec :=
  let m := min a.e b.e
  let ca := a.c * ((pow10 (a.e - m).toNat : Nat) : Int)
  let cb := b.c * ((pow10 (b.e - m).toNat : Nat) : Int)
  decTrap (decFix (ca + cb) m)

/-- `Decimal` subtraction, i.e. addition of the negation. -/
def decSub (a b : Dec) : Except PyExc Dec := decAdd a ⟨-b.c, b.e⟩

/-- `Decimal` multiplication under the default context. -/
def decMul (a b : Dec) : Except PyExc Dec :=
  decTrap (decFix (a.c * b.c) (a.e + b.e))

/-- Adjusted exponent `⌊log10 (p / q)⌋` of a positive rational `p / q`,
computed from digit counts plus one comparison. -/
def ratAdjExp (p q : Nat) : Int :=
  if (if 0 ≤ (decDigits p : Int) - (decDigits q : Int)
      then p < pow10 ((decDigits p : Int) - (decDigits q : Int)).toNat * q
      else p * pow10 ((decDigits q : Int) - (decDigits p : Int)).toNat < q)
  then (decDigits p : Int) - (decDigits q : Int) - 1
  else (decDigits p : Int) - (decDigits q : Int)

/-- Correctly rounded 28-significant-digit quotient: rounds the positive
rational `p / q` half-even, scaled by `10 ^ E` (division's exponent part). -/
def decDivRound (sign : Int) (p q : Nat) (E : Int) : Dec :=
  let e := ratAdjExp p q
  let nd := if 0 ≤ 27 - e then (p * pow10 (27 - e).toNat, q)
            else (p, q * pow10 (e - 27).toNat)
  let m := halfEvenNat (nd.1 / nd.2) (nd.1 % nd.2) nd.2
  if m < pow10 28 then ⟨sign * (m : Int), E + e - 27⟩
  else ⟨sign * ((m / 10 : Nat) : Int), E + e - 26⟩

/-- `Decimal` division under the default context.  A zero divisor raises
`decimal.DivisionByZero` (or `DivisionUndefined` for `0 / 0`); both subclass
`ZeroDivisionError`, which is what `calculate` catches, so both are modelled
as `zeroDivisionError`. -/
def decDiv (a b : Dec) : Except PyExc Dec :=
  if b.c = 0 then .error .zeroDivisionError
  else if a.c = 0 then .ok ⟨0, a.e - b.e⟩
  else decTrap (decDivRound (Int.sign a.c * Int.sign b.c) a.c.natAbs b.c.natAbs (a.e - b.e))

/-- Exact conversion `Decimal(int)`: construction never rounds. -/
def decFromInt (n : Int) : Dec := ⟨n, 0⟩

/-- The rational value a `Dec` denotes. -/
def decVal (d : Dec) : ℚ := (d.c : ℚ) * (10 : ℚ) ^ d.e

/-- A Python number in this program: an `int` or a `Decimal`. -/
inductive Val where
  | vInt (n : Int)
  | vDec (d : Dec)
deriving DecidableEq, Repr

/-- The rational value of a `Val`. -/
def valQ : Val → ℚ
  | .vInt n => (n : ℚ)
  | .vDec d => decVal d

/-- Python `== 0` across `int` and `Decimal`. -/
def valIsZero : Val → Bool
  | .vInt n => n = 0
  | .vDec d => d.c = 0

/-- Python `< 0` across `int` and `Decimal`. -/
def valIsNeg : Val → Bool
  | .vInt n => n < 0
  | .vDec d => d.c < 0

/-- Python unary negation. -/
def valNeg : Val → Val
  | .vInt n => .vInt (-n)
  | .vDec d => .vDec ⟨-d.c, d.e⟩

/-- Promotion of a `Val` to a `Dec` (`Decimal(x)`; exact). -/
def valToDec : Val → Dec
  | .vInt n => decFromInt n
  | .vDec d => d

/-- Python `x + y` on this program's numbers: exact on two `int`s, context
`Decimal` addition as soon as a `Decimal` is involved. -/
def valAdd : Val → Val → Except PyExc Val
  | .vInt a, .vInt b => .ok (.vInt (a + b))
  | a, b => .vDec <$> decAdd (valToDec a) (valToDec b)

/-- Python `x - y` (see `valAdd`). -/
def valSub : Val → Val → Except PyExc Val
  | .vInt a, .vInt b => .ok (.vInt (a - b))
  | a, b => .vDec <$> decSub (valToDec a) (valToDec b)

/-- Python `x * y` (see `valAdd`). -/
def valMul : Val → Val → Except PyExc Val
  | .vInt a, .vInt b => .ok (.vInt (a * b))
  | a, b => .vDec <$> decMul (valToDec a) (valToDec b)

/-- The `/` operator of `rpn_evaluation`: `Decimal(x / y)`.  With a `Decimal`
operand this is context division.  With two `int`s CPython performs binary
float division before the exact `Decimal(float)` conversion; the float's
binary rounding is not modelled (no claim concerns the value of an
`int / int` quotient) and the quotient is modelled by context division.
A zero divisor raises `ZeroDivisionError` in every case. -/
def valDiv : Val → Val → Except PyExc Val
  | .vInt a, .vInt b =>
      if b = 0 then .error .zeroDivisionError
      else .vDec <$> decDiv (decFromInt a) (decFromInt b)
  | a, b => .vDec <$> decDiv (valToDec a) (valToDec b)

/-- `b ** n` for a zero exponent (the `n == 0` early return of
`pure_python_exp`): `1` for two plain `int`s; with a `Decimal` involved,
`Decimal(0) ** 0` raises `decimal.InvalidOperation`, otherwise the result is
`Decimal(1)`. -/
def powZero (b n : Val) : Except PyExc Val :=
  match b, n with
  | .vInt a, .vInt _ => .ok (.vInt (a ^ (0 : Nat)))
  | b, _ => if valIsZero b then .error .invalidOperation else .ok (.vDec ⟨1, 0⟩)

/-- `Decimal ** Decimal` for the fractional-leftover fallback of
`pure_python_exp`.  A zero exponent gives `1` (`InvalidOperation` on a zero
base); a nonzero non-integral exponent is transcendental: `InvalidOperation`
on a negative base, `DivisionByZero` (a `ZeroDivisionError` subclass) on a
zero base, and otherwise a correctly rounded power whose numeric value no
claim depends on, modelled as an unspecified constant. -/
def decPowFrac (b lv : Dec) : Except PyExc Dec :=
  if lv.c = 0 then
    if b.c = 0 then .error .invalidOperation else .ok ⟨1, 0⟩
  else if b.c < 0 then .error .invalidOperation
  else if b.c = 0 then .error .zeroDivisionError
  else .ok ⟨0, 0⟩

/-- Ceiling of a `Val` as an integer (used to count the iterations of the
`while iteration_count < n` loop of `pure_python_exp`). -/
def ceilVal : Val → Int
  | .vInt n => n
  | .vDec d =>
      if 0 ≤ d.e then d.c * ((pow10 d.e.toNat : Nat) : Int)
      else -((-d.c).ediv ((pow10 (-d.e).toNat : Nat) : Int))

/-- The repeated-multiplication loop of `pure_python_exp`
(`current_value *= b`, `k` times, timeout checks elided). -/
def pyExpLoop (b : Val) : Val → Nat → Except PyExc Val
  | cur, 0 => .ok cur
  | cur, k + 1 => do pyExpLoop b (← valMul cur b) k

/-- `except decimal.InvalidOperation: raise OverflowError` — the only
handler inside `pure_python_exp`. -/
def mapInvalidOperation (r : Except PyExc Val) : Except PyExc Val :=
  match r with
  | .error .invalidOperation => .error .overflowError
  | x => x

/-- Body of `pure_python_exp` before its exception handler.  The
`while iteration_count < n` loop starts at `iteration_count = 1` and so runs
`(⌈n⌉ - 1)⁺` times, finishing with `iteration_count = max 1 ⌈n⌉`; for a
non-`int` exponent the leftover `n - iteration_count` feeds one direct
`Decimal` power; a negative exponent takes `1 / Decimal(result)` at the end. -/
def pureExpBody (b n : Val) : Except PyExc Val :=
  if valIsZero n then powZero b n
  else
    let exponentIsInt : Bool := match n with | .vInt _ => true | .vDec _ => false
    let exponentIsNegative := valIsNeg n
    let npos := if exponentIsNegative then valNeg n else n
    let k : Nat := (ceilVal npos - 1).toNat
    do
      let cur ← pyExpLoop b b k
      let cur ←
        if exponentIsInt then pure cur
        else do
          let leftover ← decSub (valToDec npos) (decFromInt ((k : Int) + 1))
          let p ← decPowFrac (valToDec b) leftover
          Except.map .vDec (decMul (valToDec cur) p)
      if exponentIsNegative then Except.map .vDec (decDiv (decFromInt 1) (valToDec cur))
      else pure cur

/-- `pure_python_exp`, the overflow-guarded exponentiation routine. -/
def pure_python_exp (b n : Val) : Except PyExc Val :=
  mapInvalidOperation (pureExpBody b n)

/-- The recognized function keywords (`FUNCTION_NAMES`). -/
def FUNCTION_NAMES : List String := ["sin", "cos", "tan", "cot", "ln", "log"]

/-- A lexer token: a number, or a string token (operators, brackets, function
names, the `"end"` sentinel, and the collected text of an unrecognized
token). -/
inductive Tok where
  | num (v : Val)
  | sym (s : String)
deriving DecidableEq, Repr

/-- The single-character tokens `+-*/^(){}`. -/
def isOpBracketChar (c : Char) : Bool :=
  c = '+' ∨ c = '-' ∨ c = '*' ∨ c = '/' ∨ c = '^' ∨ c = '(' ∨ c = ')' ∨
  c = '\x7b' ∨ c = '\x7d'

/-- Membership in `" 0123456789+-*/^(){}"`, the set that stops the
unrecognized-token collection loop of `get_next_token`. -/
def isStopChar (c : Char) : Bool := c = ' ' ∨ c.isDigit ∨ isOpBracketChar c

/-- Digit accumulation of `get_int_or_decimal_from_string`: state is
`(left_of_decimal, right_of_decimal, dot_seen, divide_by)`. -/
def gidAux : List Char → Int → Int → Bool → Int → Int × Int × Bool × Int
  | [], l, r, ds, db => (l, r, ds, db)
  | ch :: rest, l, r, ds, db =>
      if ch = '.' then gidAux rest l r true db
      else if ds then gidAux rest l (r * 10 + ((ch.toNat : Int) - 48)) ds (db * 10)
      else gidAux rest (l * 10 + ((ch.toNat : Int) - 48)) r ds db

/-- `get_int_or_decimal_from_string`: positional digit accumulation, then
either the exact `int`, or `Decimal(left) + Decimal(right) / divide_by`
under the default decimal context. -/
def get_int_or_decimal_from_string (cs : List Char) : Except PyExc Val :=
  match gidAux cs 0 0 false 1 with
  | (l, _, false, _) => .ok (.vInt l)
  | (l, r, true, db) => do
      let frac ← decDiv (decFromInt r) (decFromInt db)
      Except.map .vDec (decAdd (decFromInt l) frac)

/-- The maximal digits-and-dots scan of `get_next_token`: returns the
consumed run, the number of dots seen, and the rest of the stream with the
stopping character pushed back (Python keeps it in `next_char`). -/
def scanNumber : List Char → List Char × Nat × List Char
  | [] => ([], 0, [])
  | c :: rest =>
      if c.isDigit ∨ c = '.' then
        let (nc, d, r) := scanNumber rest
        (c :: nc, d + (if c = '.' then 1 else 0), r)
      else ([], 0, c :: rest)

/-- The unrecognized-token collection loop of `get_next_token`: consume
characters until one from `" 0123456789+-*/^(){}"` or the end of input.
Python discards the stopping character (lexing is about to abort, so the
rest of the stream is never read); the model returns it with the rest. -/
def scanWrong : List Char → List Char × List Char
  | [] => ([], [])
  | c :: rest =>
      if isStopChar c then ([], c :: rest)
      else
        let (w, r) := scanWrong rest
        (c :: w, r)

/-- Finish `get_next_token` on the unrecognized-token path: `pre` holds the
characters already consumed by the keyword attempts. -/
def wrongFrom (pre : List Char) (rest : List Char) : Tok × Bool × List Char :=
  let (w, r) := scanWrong rest
  (.sym (String.mk (pre ++ w)), false, r)

/-- `get_next_token`.  The Python iterator plus push-back character is
modelled as a single character stream: the stream this returns is the
iterator's remainder with the returned `next_char` (if any) at its front. -/
def get_next_token (cs : List Char) : Except PyExc (Tok × Bool × List Char) :=
  match cs with
  | [] => .ok (.sym "end", true, [])
  | c :: rest =>
      if isOpBracketChar c then .ok (.sym c.toString, true, rest)
      else if c = 's' then
        match rest with
        | c2 :: c3 :: rest2 =>
            if c2 = 'i' ∧ c3 = 'n' then .ok (.sym "sin", true, rest2)
            else .ok (wrongFrom [c, c2, c3] rest2)
        | rest2 => .ok (wrongFrom (c :: rest2) [])
      else if c = 't' then
        match rest with
        | c2 :: c3 :: rest2 =>
            if c2 = 'a' ∧ c3 = 'n' then .ok (.sym "tan", true, rest2)
            else .ok (wrongFrom [c, c2, c3] rest2)
        | rest2 => .ok (wrongFrom (c :: rest2) [])
      else if c = 'c' then
        match rest with
        | c2 :: c3 :: rest2 =>
            if c2 = 'o' ∧ c3 = 's' then .ok (.sym "cos", true, rest2)
            else if c2 = 'o' ∧ c3 = 't' then .ok (.sym "cot", true, rest2)
            else .ok (wrongFrom [c, c2, c3] rest2)
        | rest2 => .ok (wrongFrom (c :: rest2) [])
      else if c = 'l' then
        match rest with
        | c2 :: rest2 =>
            if c2 = 'n' then .ok (.sym "ln", true, rest2)
            else if c2 = 'o' then
              match rest2 with
              | c3 :: rest3 =>
                  if c3 = 'g' then .ok (.sym "log", true, rest3)
                  else .ok (wrongFrom [c, c2, c3] rest3)
              | [] => .ok (wrongFrom [c, c2] [])
            else .ok (wrongFrom [c, c2] rest2)
        | [] => .ok (wrongFrom [c] [])
      else if c.isDigit ∨ c = '.' then
        let (numChars, dots, r) := scanNumber (c :: rest)
        if dots < 2 ∧ numChars ≠ ['.'] then do
          let v ← get_int_or_decimal_from_string numChars
          .ok (.num v, true, r)
        else .ok (.sym (String.mk numChars), false, r)
      else .ok (wrongFrom [c] rest)

/-- The token-collection loop of `get_tokens`: append tokens until the
`"end"` sentinel; an unsuccessful read clears the list. -/
def gtLoop : Nat → List Char → Except PyExc (List Tok)
  | 0, _ => .error .fuelExhausted
  | fuel + 1, cs => do
      let (tok, rs, rest) ← get_next_token cs
      if ¬rs then .ok []
      else if tok = .sym "end" then .ok []
      else Except.map (tok :: ·) (gtLoop fuel rest)

/-- `get_tokens`: delete spaces (`expression.replace(" ", "")`), drop one
trailing `=`, then collect tokens.  Each successful read consumes at least
one character, so `length + 1` units of fuel always suffice. -/
def get_tokens (expression : String) : Except PyExc (List Tok) :=
  let e1 := expression.data.filter (fun c => c ≠ ' ')
  let e2 := if e1.getLast? = some '=' then e1.dropLast else e1
  if e2 = [] then .ok []
  else gtLoop (e2.length + 1) e2

/-- Is this token the string `"("` or `"{"`? -/
def isOpener (t : Tok) : Bool := t = .sym "(" ∨ t = .sym "\x7b"

/-- Is this token the string `")"` or `"}"`? -/
def isCloser (t : Tok) : Bool := t = .sym ")" ∨ t = .sym "\x7d"

/-- Is this token one of the five operator strings? -/
def isOperatorTok (t : Tok) : Bool :=
  t = .sym "+" ∨ t = .sym "-" ∨ t = .sym "*" ∨ t = .sym "/" ∨ t = .sym "^"

/-- Is this token a function-name string (`token in FUNCTION_NAMES`)? -/
def isFnTok (t : Tok) : Bool :=
  match t with
  | .sym s => s ∈ FUNCTION_NAMES
  | .num _ => false

/-- Pass 1 of `check_parens_correctness`: the bracket-matching stack walk.
`stack` holds the currently open brackets, most recent first. -/
def parensPass1 (stack : List Tok) : List Tok → Bool
  | [] => stack.isEmpty
  | t :: rest =>
      if isOpener t then parensPass1 (t :: stack) rest
      else if t = .sym ")" then
        match stack with
        | [] => false
        | s0 :: stack2 => if s0 = .sym "(" then parensPass1 stack2 rest else false
      else if t = .sym "\x7d" then
        match stack with
        | [] => false
        | s0 :: stack2 => if s0 = .sym "\x7b" then parensPass1 stack2 rest else false
      else parensPass1 stack rest

/-- Pass 2 of `check_parens_correctness`, walking `enumerate(tokens, 1)`.
A function name whose conjunction short-circuits (it is the last token)
passes; an opening bracket always reads `tokens[next_idx]`, which raises
`IndexError` if the bracket is last (pass 1's success rules that out). -/
def parensPass2 : List Tok → Except PyExc Bool
  | [] => .ok true
  | t :: rest =>
      if isFnTok t ∧ rest.length ≥ 1 ∧ rest.head? ≠ some (.sym "(") then .ok false
      else if t = .sym "(" then
        match rest with
        | [] => .error .indexError
        | nxt :: _ => if nxt = .sym ")" then .ok false else parensPass2 rest
      else if t = .sym "\x7b" then
        match rest with
        | [] => .error .indexError
        | nxt :: _ => if nxt = .sym "\x7d" then .ok false else parensPass2 rest
      else parensPass2 rest

/-- `check_parens_correctness`: pass 1, then (only on success) pass 2. -/
def check_parens_correctness (tokens : List Tok) : Except PyExc Bool :=
  if ¬parensPass1 [] tokens then .ok false else parensPass2 tokens

/-- `recursive_check_correctness` on a shared token cursor.  Returns the
verdict of the current nesting level together with the tokens left after the
level's closing bracket.  The first component at the end of a level is the
final `if not operator_expected then False else True` check.  Fuel is a
termination device; `2 * length + 2` always suffices. -/
def rccAux : Nat → Bool → List Tok → Bool × List Tok
  | 0, _, ts => (false, ts)
  | _ + 1, opExp, [] => (opExp, [])
  | fuel + 1, opExp, t :: rest =>
      if isOpener t then
        match rccAux fuel false rest with
        | (false, rest2) => (false, rest2)
        | (true, rest2) => rccAux fuel true rest2
      else if isCloser t then (opExp, rest)
      else if opExp ∧ ¬isOperatorTok t then (false, rest)
      else if ¬opExp ∧ (t = .sym "*" ∨ t = .sym "/" ∨ t = .sym "^") then (false, rest)
      else
        match t with
        | .num _ => rccAux fuel true rest
        | _ =>
            if isOperatorTok t then rccAux fuel false rest
            else rccAux fuel opExp rest

/-- `check_correctness`: parenthesis checks, then the recursive grammar
walk over the whole token list. -/
def check_correctness (tokens : List Tok) : Except PyExc Bool := do
  let p ← check_parens_correctness tokens
  if ¬p then .ok false
  else .ok (rccAux (2 * tokens.length + 2) false tokens).1

/-- An element of the restructured ("easier") token lists: a number, a
string token, or a nested Python list. -/
inductive ETok where
  | num (v : Val)
  | sym (s : String)
  | list (l : List ETok)

/-- Injection of lexer tokens into restructured tokens. -/
def tokToE : Tok → ETok
  | .num v => .num v
  | .sym s => .sym s

/-- Python `iter(x)` on a restructured token: a list yields its elements, a
string yields its characters (as one-character strings), and a number raises
`TypeError`. -/
def iterOf : ETok → Except PyExc (List ETok)
  | .list l => .ok l
  | .sym s => .ok (s.data.map (fun c => .sym c.toString))
  | .num _ => .error .typeError

/-- Does this restructured token equal the string token `s`? -/
def eSymIs (t : ETok) (s : String) : Bool :=
  match t with
  | .sym x => x = s
  | _ => false

/-- Is this restructured token a function-name string? -/
def eIsFn (t : ETok) : Bool :=
  match t with
  | .sym x => x ∈ FUNCTION_NAMES
  | _ => false

/-- `nest_parenthesized_expressions`: replace each bracket pair by a nested
list.  Returns the built level together with the tokens remaining in the
shared cursor after the level's closing bracket.  Fuel is a termination
device; `2 * length + 2` always suffices. -/
def npe : Nat → List Tok → List ETok × List Tok
  | 0, ts => ([], ts)
  | _ + 1, [] => ([], [])
  | fuel + 1, t :: rest =>
      if isCloser t then ([], rest)
      else if isOpener t then
        let (inner, rest2) := npe fuel rest
        let (lvl, rest3) := npe fuel rest2
        (.list inner :: lvl, rest3)
      else
        let (lvl, rest2) := npe fuel rest
        (tokToE t :: lvl, rest2)

/-- `nest_functions`: wrap each function name together with the (already
bracket-nested) element following it into a two-element list.  A function
name with nothing after it would raise `StopIteration`; one followed by a
number would raise `TypeError` from `iter` (both unreachable after
validation). -/
def nest_functions : Nat → List ETok → Except PyExc (List ETok)
  | 0, _ => .error .fuelExhausted
  | _ + 1, [] => .ok []
  | fuel + 1, t :: rest =>
      match t with
      | .list l => do
          .ok (.list (← nest_functions fuel l) :: (← nest_functions fuel rest))
      | .sym s =>
          if s ∈ FUNCTION_NAMES then
            match rest with
            | [] => .error .stopIteration
            | arg :: rest2 => do
                let argl ← iterOf arg
                .ok (.list [.sym s, .list (← nest_functions fuel argl)] ::
                     (← nest_functions fuel rest2))
          else do .ok (t :: (← nest_functions fuel rest))
      | .num _ => do .ok (t :: (← nest_functions fuel rest))

/-- The `easier_tokens.pop()` loop of `nest_exponentiation`: split off the
run of already-appended unary `+`/`-` tokens (most recent first). -/
def popUnaries : List ETok → List ETok × List ETok
  | [] => ([], [])
  | t :: rest =>
      if eSymIs t "+" ∨ eSymIs t "-" then
        let (u, r) := popUnaries rest
        (t :: u, r)
      else ([], t :: rest)

/-- Loop body of `nest_exponentiation`.  The input stream is already
reversed; `acc` is `easier_tokens` with the most recently appended element
first, so the final `easier_tokens.reverse()` is the identity on `acc`.
A recursive `nest_exponentiation(reversed(token))` call on a nested level
appears here as `neAux fuel [] l.reverse`.  Popping from an empty
`easier_tokens` raises `IndexError`; `next` past the end of the stream
raises `StopIteration` (both unreachable after validation). -/
def neAux : Nat → List ETok → List ETok → Except PyExc (List ETok)
  | 0, _, _ => .error .fuelExhausted
  | _ + 1, acc, [] => .ok acc
  | fuel + 1, acc, t :: rest =>
      match t with
      | .list l => do neAux fuel (.list (← neAux fuel [] l.reverse) :: acc) rest
      | .sym s =>
          if s = "^" then
            match rest with
            | [] => .error .stopIteration
            | bt :: rest2 => do
                let base ←
                  match bt with
                  | .list l => do pure (ETok.list (← neAux fuel [] l.reverse))
                  | _ => pure bt
                let ur := popUnaries acc
                match ur.2 with
                | [] => .error .indexError
                | operand :: acc2 =>
                    neAux fuel (.list ([base, .sym "^"] ++ ur.1 ++ [operand]) :: acc2) rest2
          else neAux fuel (t :: acc) rest
      | .num _ => neAux fuel (t :: acc) rest

/-- `nest_exponentiation` on a level in its original order (every Python
call site passes `reversed(...)`, folded into this wrapper). -/
def nest_exponentiation (fuel : Nat) (l : List ETok) : Except PyExc (List ETok) :=
  neAux fuel [] l.reverse

/-- Operand handling of `convert_to_no_unaries`: given the parity of the
pending minus run and the operand token, produce the emitted elements and
the remaining stream (a function name also consumes its argument). -/
def ctnOperand (ctnRec : List ETok → Except PyExc (List ETok)) (minuses : Nat)
    (t : ETok) (rest : List ETok) : Except PyExc (List ETok × List ETok) :=
  if minuses % 2 = 1 then
    match t with
    | .sym s =>
        if s ∈ FUNCTION_NAMES then
          match rest with
          | [] => .error .stopIteration
          | arg :: rest2 => do
              let argl ← iterOf arg
              let conv ← ctnRec argl
              .ok ([.list [.num (.vInt (-1)), .sym "*", t, .list conv]], rest2)
        else .ok ([.list [.num (.vInt (-1)), .sym "*", t]], rest)
    | .list l => do
        let conv ← ctnRec l
        .ok ([.list [.num (.vInt (-1)), .sym "*", .list conv]], rest)
    | .num _ => .ok ([.list [.num (.vInt (-1)), .sym "*", t]], rest)
  else
    match t with
    | .sym s =>
        if s ∈ FUNCTION_NAMES then
          match rest with
          | [] => .error .stopIteration
          | arg :: rest2 => do
              let argl ← iterOf arg
              let conv ← ctnRec argl
              .ok ([t, .list conv], rest2)
        else .ok ([t], rest)
    | .list l => do
        let conv ← ctnRec l
        .ok ([.list conv], rest)
    | .num _ => .ok ([t], rest)

/-- `convert_to_no_unaries`: drop unary `+`, count unary `-` runs, and fold
an odd run into a `[-1, "*", operand]` list; after each operand the next
stream element (the following binary operator) is appended unchanged. -/
def convert_to_no_unaries : Nat → Nat → List ETok → Except PyExc (List ETok)
  | 0, _, _ => .error .fuelExhausted
  | _ + 1, _, [] => .ok []
  | fuel + 1, minuses, t :: rest =>
      if eSymIs t "+" then convert_to_no_unaries fuel minuses rest
      else if eSymIs t "-" then convert_to_no_unaries fuel (minuses + 1) rest
      else do
        let er ← ctnOperand (convert_to_no_unaries fuel 0) minuses t rest
        match er.2 with
        | [] => .ok er.1
        | op :: rest3 => do
            .ok (er.1 ++ op :: (← convert_to_no_unaries fuel 0 rest3))

/-- The `precedence` table of `shunting_yard_evaluation`. -/
def precOf (s : String) : Option Nat :=
  if s = "+" ∨ s = "-" then some 1
  else if s = "*" ∨ s = "/" then some 2
  else if s = "^" then some 3
  else none

/-- The operator-stack popping loop: pop operators whose stored precedence is
at least the incoming one (`precedence[token] <= precedence[stack[-1]]`). -/
def syPop (p : Nat) : List String → List String × List String
  | [] => ([], [])
  | op :: rest =>
      if p ≤ (precOf op).getD 0 then
        let (a, b) := syPop p rest
        (op :: a, b)
      else ([], op :: rest)

/-- `Decimal(function(argument))` for the `function_mapping` table.  The
`math` functions compute on floats; their transcendental values are not
modelled (no claim depends on one) and are an unspecified constant.  What is
modelled is the domain behaviour `calculate` classifies: `ln`/`log` of a
non-positive value raises `ValueError`, and `cot(0)` divides by `tan(0) = 0`,
raising `ZeroDivisionError`.  (Conversion of a `Decimal` too large for a
float, which would raise `OverflowError`, is not modelled.) -/
def applyFunction (s : String) (v : Val) : Except PyExc Val :=
  if s = "ln" ∨ s = "log" then
    if valQ v ≤ 0 then .error .valueError else .ok (.vDec ⟨0, 0⟩)
  else if s = "cot" then
    if valQ v = 0 then .error .zeroDivisionError else .ok (.vDec ⟨0, 0⟩)
  else .ok (.vDec ⟨0, 0⟩)

/-- Is this string one of the five operator keys of `operators` in
`rpn_evaluation`? -/
def isOpString (s : String) : Bool :=
  s = "+" ∨ s = "-" ∨ s = "*" ∨ s = "/" ∨ s = "^"

/-- Apply a binary operator from the `operators` table of
`rpn_evaluation`. -/
def applyOp (s : String) (a b : Val) : Except PyExc Val :=
  if s = "+" then valAdd a b
  else if s = "-" then valSub a b
  else if s = "*" then valMul a b
  else if s = "/" then valDiv a b
  else pure_python_exp a b

/-- The stack walk of `rpn_evaluation`.  `stack` is the evaluation stack,
most recent first; popping an empty stack raises `IndexError`.  A popped
operand that is a nested list is resolved by the recursive
`rpn_evaluation(operand)` call, which appears here as `rpnAux fuel []`;
a leftover string operand would raise `TypeError` when the arithmetic is
applied (unreachable after validation).  At the end the function returns
`evaluation_stack[0]`, the bottom element — the model requires it to be a
number (it always is; a leftover list or string there would just be
returned raw by Python, a path no reachable queue produces). -/
def rpnAux : Nat → List ETok → List ETok → Except PyExc Val
  | 0, _, _ => .error .fuelExhausted
  | _ + 1, stack, [] =>
      match stack.getLast? with
      | some (.num v) => .ok v
      | some _ => .error .typeError
      | none => .error .indexError
  | fuel + 1, stack, t :: rest =>
      match t with
      | .sym s =>
          if isOpString s then
            match stack with
            | o2 :: o1 :: stack2 => do
                let a1 ←
                  match o1 with
                  | .num v => pure v
                  | .list l => rpnAux fuel [] l
                  | .sym _ => (.error .typeError : Except PyExc Val)
                let a2 ←
                  match o2 with
                  | .num v => pure v
                  | .list l => rpnAux fuel [] l
                  | .sym _ => (.error .typeError : Except PyExc Val)
                let r ← applyOp s a1 a2
                rpnAux fuel (.num r :: stack2) rest
            | _ => .error .indexError
          else rpnAux fuel (t :: stack) rest
      | _ => rpnAux fuel (t :: stack) rest

/-- `rpn_evaluation` of a postfix queue. -/
def rpn_evaluation (fuel : Nat) (queue : List ETok) : Except PyExc Val :=
  rpnAux fuel [] queue

/-- The token walk of `shunting_yard_evaluation`: `opStack` is the operator
stack (top first), `queue` the output queue in order.  A `None` from a
recursive call propagates as `none`; exceptions propagate as errors. -/
def syAux : Nat → List ETok → List String → List ETok → Except PyExc (Option Val)
  | 0, _, _, _ => .error .fuelExhausted
  | fuel + 1, [], opStack, queue =>
      Except.map some (rpn_evaluation (fuel + 1) (queue ++ opStack.map ETok.sym))
  | fuel + 1, t :: rest, opStack, queue =>
      match t with
      | .list l => do
          match ← syAux fuel l [] [] with
          | none => .ok none
          | some v => syAux fuel rest opStack (queue ++ [.num v])
      | .num _ => syAux fuel rest opStack (queue ++ [t])
      | .sym s =>
          if s ∈ FUNCTION_NAMES then
            match rest with
            | [] => .error .stopIteration
            | arg :: rest2 => do
                let argl ← iterOf arg
                match ← syAux fuel argl [] [] with
                | none => .ok none
                | some av => do
                    let fv ← applyFunction s av
                    syAux fuel rest2 opStack (queue ++ [.num fv])
          else
            match precOf s with
            | some p =>
                let ab := syPop p opStack
                syAux fuel rest (s :: ab.2) (queue ++ ab.1.map ETok.sym)
            | none => syAux fuel rest opStack queue

/-- `shunting_yard_evaluation`: precedence-climbing reduction of one nesting
level to postfix, then `rpn_evaluation` of the queue. -/
def shunting_yard_evaluation (fuel : Nat) (l : List ETok) : Except PyExc (Option Val) :=
  syAux fuel l [] []

/-- `evaluate`: the four restructuring passes followed by the shunting-yard
evaluation.  All fuel is a termination device: the bound used suffices for
every input (each stage consumes its input structurally). -/
def evaluate (tokens : List Tok) : Except PyExc (Option Val) := do
  let F := 8 * tokens.length + 16
  let e1 := (npe F tokens).1
  let e2 ← nest_functions F e1
  let e3 ← nest_exponentiation F e2
  let e4 ← convert_to_no_unaries F 0 e3
  shunting_yard_evaluation F e4

/-- The `try` body of `calculate`: tokenize, validate, evaluate.  The status
is `0 = Success`, `1 = InvalidExpression` for an empty or cleared token list
or a failed validation; a `None` evaluation result would be returned as-is
with status `0` (it never occurs). -/
def calcBody (expression : String) : Except PyExc (Int × Option Val) := do
  let tokens ← get_tokens expression
  if tokens = [] then .ok (1, some (.vInt 0))
  else do
    let ok ← check_correctness tokens
    if ¬ok then .ok (1, some (.vInt 0))
    else do
      let r ← evaluate tokens
      .ok (0, r)

/-- `calculate`: runs the pipeline and converts the five caught exception
classes (`ValueError`, `ZeroDivisionError`, `OverflowError`, `TimeoutError`,
`MemoryError`) into status codes `2`–`6` paired with the value `0`.  Any
other exception — in particular `decimal.Overflow` — escapes `calculate`,
modelled by the `.error` result. -/
def calculate (expression : String) : Except PyExc (Int × Option Val) :=
  match calcBody expression with
  | .ok p => .ok p
  | .error .valueError => .ok (2, some (.vInt 0))
  | .error .zeroDivisionError => .ok (3, some (.vInt 0))
  | .error .overflowError => .ok (4, some (.vInt 0))
  | .error .timeoutError => .ok (5, some (.vInt 0))
  | .error .memoryError => .ok (6, some (.vInt 0))
  | .error e => .error e

/-! ## Decidability of result comparisons -/

/-- Decidable equality of pipeline results. -/
instance {α β : Type} [DecidableEq α] [DecidableEq β] : DecidableEq (Except α β) :=
  fun x y =>
    match x, y with
    | .ok a, .ok b =>
        if h : a = b then .isTrue (by rw [h]) else .isFalse (fun hh => h (Except.ok.inj hh))
    | .error a, .error b =>
        if h : a = b then .isTrue (by rw [h]) else .isFalse (fun hh => h (Except.error.inj hh))
    | .ok _, .error _ => .isFalse (fun hh => Except.noConfusion hh)
    | .error _, .ok _ => .isFalse (fun hh => Except.noConfusion hh)

/-! ## C2, C3: concrete round-trip evaluations -/

/-- C2: `calculate "3+4*2"` succeeds with `11`, `calculate "(3+4)*2"` with
`14`, and `calculate "2^3^2"` with `512` — exponentiation is
right-associative, `2^(3^2)`, not `(2^3)^2 = 64`. -/
theorem calculate_precedence_round_trip :
    calculate "3+4*2" = .ok (0, some (.vInt 11)) ∧
    calculate "(3+4)*2" = .ok (0, some (.vInt 14)) ∧
    calculate "2^3^2" = .ok (0, some (.vInt 512)) :=
  ⟨rfl, rfl, rfl⟩

/-- C3: `calculate "--5"` returns exactly what `calculate "5"` returns (an
even unary-minus run is a no-op; both give `Success` with `5`), and
`calculate "-5^2"` succeeds with `-25`: the leading minus is folded after
exponentiation nesting, so it negates the whole `5^2` group. -/
theorem calculate_unary_folding :
    calculate "--5" = calculate "5" ∧
    calculate "--5" = .ok (0, some (.vInt 5)) ∧
    calculate "-5^2" = .ok (0, some (.vInt (-25))) :=
  ⟨rfl, rfl, rfl⟩

/-! ## C1: `decimal.Overflow` escapes `calculate` -/

set_option maxRecDepth 1000000 in
/-- C1 (refuting the claim that every input string produces a status pair):
on `"((99.5^99)^99)^99"` the repeated `Decimal` multiplication inside
`pure_python_exp` pushes the adjusted exponent past `Emax = 999999`, raising
`decimal.Overflow` — which is not a `builtins.OverflowError` and matches none
of the five `except` clauses of `calculate`, so the exception escapes the
function instead of becoming a status code. -/
theorem calculate_decimal_overflow_escapes :
    calculate "((99.5^99)^99)^99" = .error .decimalOverflow :=
  rfl

/-! ## C5: spaces are deleted, not token separators -/

/-- C5 counterexample: tokenizing `"1 2"` does not produce the two number
tokens `1` and `2` — `get_tokens` deletes every space up front, so it
produces the single token `12`, and `calculate "1 2"` consequently succeeds
with `12` instead of being rejected. -/
theorem get_tokens_space_counterexample :
    get_tokens "1 2" ≠ .ok [.num (.vInt 1), .num (.vInt 2)] ∧
    get_tokens "1 2" = .ok [.num (.vInt 12)] ∧
    calculate "1 2" = .ok (0, some (.vInt 12)) :=
  ⟨by decide, rfl, rfl⟩

/-- C5 amended: the tokenizer deletes all spaces before lexing
(`expression.replace(" ", "")`), so spaces never separate tokens:
`get_tokens` of any string equals `get_tokens` of the string with its
spaces removed; in particular `"1 2"` lexes to the single number token `12`
and `calculate "1 2"` succeeds with `12`. -/
theorem get_tokens_deletes_spaces :
    (∀ s : String, get_tokens s = get_tokens (String.mk (s.data.filter (fun c => c ≠ ' ')))) ∧
    get_tokens "1 2" = .ok [.num (.vInt 12)] ∧
    calculate "1 2" = .ok (0, some (.vInt 12)) := by
  refine ⟨fun s => ?_, rfl, rfl⟩
  have h : (String.mk (s.data.filter (fun c => c ≠ ' '))).data.filter (fun c => c ≠ ' ')
      = s.data.filter (fun c => c ≠ ' ') := by
    simp [List.filter_filter]
  simp only [get_tokens, h]

/-- C5 witness: the amended statement applied at `"1 2"`. -/
theorem get_tokens_deletes_spaces_witness :
    get_tokens "1 2" = get_tokens (String.mk ("1 2".data.filter (fun c => c ≠ ' '))) :=
  get_tokens_deletes_spaces.1 "1 2"

/-! ## C7: the grammar validator accepts adjacent operand groups -/

/-- C7 (refuting the claimed alternation invariant): the token sequence of
`"(1)(2)"` passes both validators — the opening-bracket branch of
`recursive_check_correctness` never consults `operator_expected`, so a
bracket group may directly follow an operand — and `calculate "(1)(2)"`
silently returns `Success` with `1`, the bottom of the RPN stack. -/
theorem check_correctness_accepts_adjacent_groups :
    get_tokens "(1)(2)" =
      .ok [.sym "(", .num (.vInt 1), .sym ")", .sym "(", .num (.vInt 2), .sym ")"] ∧
    check_correctness
      [.sym "(", .num (.vInt 1), .sym ")", .sym "(", .num (.vInt 2), .sym ")"] = .ok true ∧
    calculate "(1)(2)" = .ok (0, some (.vInt 1)) :=
  ⟨rfl, rfl, rfl⟩

/-! ## C6 counterexample: a function must be followed by `"("` exactly -/

/-- C6 counterexample: the token sequence of `"sin{3}"` passes pass 1 and
has its function token followed by an opening bracket (`"{"`) and no empty
pair, yet the structural validator rejects it: pass 2 compares the token
after a function name against `"("` only.  `calculate "sin{3}"` therefore
reports `InvalidExpression`. -/
theorem check_parens_rejects_function_curly :
    get_tokens "sin\x7b3\x7d" =
      .ok [.sym "sin", .sym "\x7b", .num (.vInt 3), .sym "\x7d"] ∧
    parensPass1 [] [.sym "sin", .sym "\x7b", .num (.vInt 3), .sym "\x7d"] = true ∧
    check_parens_correctness [.sym "sin", .sym "\x7b", .num (.vInt 3), .sym "\x7d"] = .ok false ∧
    calculate "sin\x7b3\x7d" = .ok (1, some (.vInt 0)) :=
  ⟨rfl, rfl, rfl, rfl⟩

/-! ## C8 counterexample: `Decimal(0) ** 0` -/

/-- C8 counterexample: `pure_python_exp` does not return `1` for every base
when the exponent is `0` — with a zero-valued `Decimal` base, `b ** 0`
raises `decimal.InvalidOperation`, which the function's handler converts to
`OverflowError`. -/
theorem pure_python_exp_zero_dec_base :
    pure_python_exp (.vDec ⟨0, 0⟩) (.vInt 0) = .error .overflowError :=
  rfl

/-! ## C9: pass 1 success keeps pass 2 in bounds -/

/-- If the bracket-matching pass succeeds from any starting stack, no opening
bracket can be the last token: its pending stack entry could never be popped. -/
theorem parensPass1_opener_not_last (l : List Tok) :
    ∀ (stack : List Tok), parensPass1 stack l = true →
      ∀ i (hi : i < l.length), isOpener (l.get ⟨i, hi⟩) = true → i + 1 < l.length := by
  induction l with
  | nil => intro stack _ i hi; exact absurd hi (by simp)
  | cons t rest ih =>
      intro stack hp i hi hop
      by_cases hto : isOpener t = true
      · have hp2 : parensPass1 (t :: stack) rest = true := by
          simpa [parensPass1, hto] using hp
        match i with
        | 0 =>
            cases rest with
            | nil => simp [parensPass1] at hp2
            | cons a b => simp
        | i + 1 =>
            have := ih (t :: stack) hp2 i (by simpa using hi) (by simpa using hop)
            simpa using this
      · match i with
        | 0 => exact absurd hop (by simpa using hto)
        | i + 1 =>
            have hi2 : i < rest.length := by simpa using hi
            have hop2 : isOpener (rest.get ⟨i, hi2⟩) = true := by simpa using hop
            by_cases hcp : t = Tok.sym ")"
            · rw [hcp] at hp
              simp only [parensPass1, isOpener] at hp
              cases stack with
              | nil => simp at hp
              | cons s0 stack2 =>
                  by_cases hs : s0 = Tok.sym "("
                  · simp only [hs, if_true, reduceIte] at hp
                    have := ih _ hp i hi2 hop2
                    simpa using this
                  · simp [hs] at hp
            · by_cases hcb : t = Tok.sym "\x7d"
              · rw [hcb] at hp
                simp only [parensPass1, isOpener] at hp
                cases stack with
                | nil => simp at hp
                | cons s0 stack2 =>
                    by_cases hs : s0 = Tok.sym "\x7b"
                    · simp only [hs, if_true, reduceIte] at hp
                      have := ih _ hp i hi2 hop2
                      simpa using this
                    · simp [hs] at hp
              · have hp2 : parensPass1 stack rest = true := by
                  simpa [parensPass1, hto, hcp, hcb] using hp
                have := ih stack hp2 i hi2 hop2
                simpa using this

/-- If no opening bracket is the last token, pass 2 never reads past the end
of the token list: it completes with a verdict instead of an `IndexError`. -/
theorem parensPass2_no_index_error :
    ∀ (l : List Tok),
      (∀ i (hi : i < l.length), isOpener (l.get ⟨i, hi⟩) = true → i + 1 < l.length) →
      ∃ b, parensPass2 l = .ok b := by
  intro l
  induction l with
  | nil => exact fun _ => ⟨true, rfl⟩
  | cons t rest ih =>
      intro hop
      have hrest : ∀ i (hi : i < rest.length),
          isOpener (rest.get ⟨i, hi⟩) = true → i + 1 < rest.length := by
        intro i hi h
        have h2 := hop (i + 1) (by simpa using Nat.succ_lt_succ hi) (by simpa using h)
        simp only [List.length_cons] at h2
        omega
      by_cases h1 : isFnTok t = true ∧ rest.length ≥ 1 ∧ rest.head? ≠ some (.sym "(")
      · exact ⟨false, by simp [parensPass2, h1]⟩
      · by_cases h2 : t = Tok.sym "("
        · have h0 : (0 : Nat) + 1 < (t :: rest).length :=
            hop 0 (by simp) (by simp [h2, isOpener])
        
          cases rest with
          | nil => simp at h0
          | cons nxt rest2 =>
              by_cases h3 : nxt = Tok.sym ")"
              · exact ⟨false, by simp [parensPass2, h1, h2, h3]⟩
              · obtain ⟨b, hb⟩ := ih hrest
                exact ⟨b, by simpa [parensPass2, h1, h2, h3] using hb⟩
        · by_cases h4 : t = Tok.sym "\x7b"
          · have h0 : (0 : Nat) + 1 < (t :: rest).length :=
              hop 0 (by simp) (by simp [h4, isOpener])
            cases rest with
            | nil => simp at h0
            | cons nxt rest2 =>
                by_cases h5 : nxt = Tok.sym "\x7d"
                · exact ⟨false, by simp [parensPass2, h1, h2, h4, h5]⟩
                · obtain ⟨b, hb⟩ := ih hrest
                  exact ⟨b, by simpa [parensPass2, h1, h2, h4, h5] using hb⟩
          · obtain ⟨b, hb⟩ := ih hrest
            exact ⟨b, by simpa [parensPass2, h1, h2, h4] using hb⟩

/-- `getD` form of the opener-not-last invariant. -/
theorem parensPass1_opener_not_last_getD (l : List Tok) (h : parensPass1 [] l = true) :
    ∀ i, i < l.length → isOpener (l.getD i (.sym "")) = true → i + 1 < l.length := by
  intro i hi hop
  have hg : l.getD i (Tok.sym "") = l.get ⟨i, hi⟩ := by
    simp [List.getD, List.getElem?_eq_getElem hi, List.get_eq_getElem]
  exact parensPass1_opener_not_last l [] h i hi (hg ▸ hop)

/-- C9: when pass 1 succeeds, no opening bracket is the last token, so every
`tokens[next_idx]` access pass 2 performs for an opening bracket (or a
function name, which is explicitly bounds-guarded) is in bounds — pass 2
finishes with a verdict and never raises `IndexError`. -/
theorem pass1_success_keeps_pass2_in_bounds (tokens : List Tok)
    (h : parensPass1 [] tokens = true) :
    (∀ i (hi : i < tokens.length),
        isOpener (tokens.get ⟨i, hi⟩) = true → i + 1 < tokens.length) ∧
    ∃ b, parensPass2 tokens = .ok b :=
  ⟨parensPass1_opener_not_last tokens [] h,
   parensPass2_no_index_error tokens (parensPass1_opener_not_last tokens [] h)⟩

/-- C9 witness: the theorem applied to the token sequence of `"(1)"`. -/
theorem pass1_success_keeps_pass2_in_bounds_witness :
    (∀ i (hi : i < ([Tok.sym "(", Tok.num (.vInt 1), Tok.sym ")"] : List Tok).length),
        isOpener (([Tok.sym "(", Tok.num (.vInt 1), Tok.sym ")"] : List Tok).get ⟨i, hi⟩) = true →
        i + 1 < ([Tok.sym "(", Tok.num (.vInt 1), Tok.sym ")"] : List Tok).length) ∧
    ∃ b, parensPass2 [Tok.sym "(", Tok.num (.vInt 1), Tok.sym ")"] = .ok b :=
  pass1_success_keeps_pass2_in_bounds [Tok.sym "(", Tok.num (.vInt 1), Tok.sym ")"] (by decide)

/-! ## C6 amended: round bracket required after a function name -/

/-- Pass 2 accepts whenever openers are never last, every function name is
followed by `"("` specifically, and no bracket pair is empty. -/
theorem parensPass2_all_true :
    ∀ (l : List Tok),
      (∀ i, i < l.length → isOpener (l.getD i (.sym "")) = true → i + 1 < l.length) →
      (∀ i, i < l.length → isFnTok (l.getD i (.sym "")) = true →
          i + 1 < l.length ∧ l.getD (i + 1) (.sym "") = .sym "(") →
      (∀ i, i < l.length →
          (l.getD i (.sym "") = .sym "(" → l.getD (i + 1) (.sym "") ≠ .sym ")") ∧
          (l.getD i (.sym "") = .sym "\x7b" → l.getD (i + 1) (.sym "") ≠ .sym "\x7d")) →
      parensPass2 l = .ok true := by
  intro l
  induction l with
  | nil => intro _ _ _; rfl
  | cons t rest ih =>
      intro hop hfn hne
      have hopR : ∀ i, i < rest.length → isOpener (rest.getD i (.sym "")) = true →
          i + 1 < rest.length := by
        intro i hi h
        have h2 := hop (i + 1) (by simpa using Nat.succ_lt_succ hi) (by simpa using h)
        simp only [List.length_cons] at h2
        omega
      have hfnR : ∀ i, i < rest.length → isFnTok (rest.getD i (.sym "")) = true →
          i + 1 < rest.length ∧ rest.getD (i + 1) (.sym "") = .sym "(" := by
        intro i hi h
        have h2 := hfn (i + 1) (by simpa using Nat.succ_lt_succ hi) (by simpa using h)
        simp only [List.length_cons, List.getD_cons_succ] at h2
        exact ⟨by omega, h2.2⟩
      have hneR : ∀ i, i < rest.length →
          (rest.getD i (.sym "") = .sym "(" → rest.getD (i + 1) (.sym "") ≠ .sym ")") ∧
          (rest.getD i (.sym "") = .sym "\x7b" → rest.getD (i + 1) (.sym "") ≠ .sym "\x7d") := by
        intro i hi
        have h2 := hne (i + 1) (by simp only [List.length_cons]; omega)
        simpa using h2
      have hcond : ¬(isFnTok t = true ∧ rest.length ≥ 1 ∧ rest.head? ≠ some (.sym "(")) := by
        rintro ⟨hf, hlen, hhd⟩
        have h2 := hfn 0 (by simp) (by simpa using hf)
        apply hhd
        have hlt : 0 < rest.length := hlen
        cases rest with
        | nil => simp at hlt
        | cons a b => simpa using h2.2
      by_cases h2 : t = Tok.sym "("
      · have h0 := hop 0 (by simp) (by simp [h2, isOpener])
        simp only [List.length_cons] at h0
        cases rest with
        | nil => simp at h0
        | cons nxt rest2 =>
            have h3 : nxt ≠ Tok.sym ")" := by
              have := (hne 0 (by simp)).1 (by simpa using h2)
              simpa using this
            have hr := ih hopR hfnR hneR
            simpa [parensPass2, hcond, h2, h3] using hr
      · by_cases h4 : t = Tok.sym "\x7b"
        · have h0 := hop 0 (by simp) (by simp [h4, isOpener])
          simp only [List.length_cons] at h0
          cases rest with
          | nil => simp at h0
          | cons nxt rest2 =>
              have h5 : nxt ≠ Tok.sym "\x7d" := by
                have := (hne 0 (by simp)).2 (by simpa using h4)
                simpa using this
              have hr := ih hopR hfnR hneR
              simpa [parensPass2, hcond, h2, h4, h5] using hr
        · have hr := ih hopR hfnR hneR
          simpa [parensPass2, hcond, h2, h4] using hr

/-- C6 amended: the two bracket styles are interchangeable for grouping, but
a function token must be followed by `"("` specifically: for every token
sequence that passes pass 1, in which every function token is immediately
followed by the round opening bracket `"("` and no bracket pair of either
style is empty, the structural validator returns true — in particular the
token sequences of `"sin(3)"` and `"ln(2)"` pass, while `"sin{3}"` does not
(see the counterexample). -/
theorem check_parens_function_round_bracket (tokens : List Tok)
    (h1 : parensPass1 [] tokens = true)
    (hfn : ∀ i, i < tokens.length → isFnTok (tokens.getD i (.sym "")) = true →
        i + 1 < tokens.length ∧ tokens.getD (i + 1) (.sym "") = .sym "(")
    (hne : ∀ i, i < tokens.length →
        (tokens.getD i (.sym "") = .sym "(" → tokens.getD (i + 1) (.sym "") ≠ .sym ")") ∧
        (tokens.getD i (.sym "") = .sym "\x7b" → tokens.getD (i + 1) (.sym "") ≠ .sym "\x7d")) :
    check_parens_correctness tokens = .ok true := by
  have h2 := parensPass2_all_true tokens (parensPass1_opener_not_last_getD tokens h1) hfn hne
  simp [check_parens_correctness, h1, h2]

/-- C6 witness: the amended statement applied to the token sequence of
`"sin(3)"`. -/
theorem check_parens_function_round_bracket_witness :
    check_parens_correctness [Tok.sym "sin", Tok.sym "(", Tok.num (.vInt 3), Tok.sym ")"] =
      .ok true :=
  check_parens_function_round_bracket
    [Tok.sym "sin", Tok.sym "(", Tok.num (.vInt 3), Tok.sym ")"]
    (by decide) (by decide) (by decide)

/-! ## C10: whitespace-only inputs and failure-path values -/

/-- `Except` bind on an error short-circuits. -/
theorem except_bind_error {α β γ : Type} (e : α) (f : β → Except α γ) :
    (Except.error e >>= f) = Except.error e := rfl

/-- `Except` bind on a success applies the continuation. -/
theorem except_bind_ok {α β γ : Type} (b : β) (f : β → Except α γ) :
    (Except.ok b >>= f) = f b := rfl

/-- The ASCII whitespace characters of a Python `str` (the claim's
"whitespace"). -/
def pyWsChar (c : Char) : Bool :=
  c = ' ' ∨ c = '\t' ∨ c = '\n' ∨ c = '\r' ∨ c = '\x0b' ∨ c = '\x0c'

/-- A non-space whitespace character stops none of the lexer's tests. -/
theorem ws_char_cases (c : Char) (h : pyWsChar c = true) (hs : c ≠ ' ') :
    isStopChar c = false ∧ isOpBracketChar c = false ∧
    c ≠ 's' ∧ c ≠ 't' ∧ c ≠ 'c' ∧ c ≠ 'l' ∧ c.isDigit = false ∧ c ≠ '.' ∧ c ≠ '=' := by
  simp only [pyWsChar, decide_eq_true_eq, Bool.or_eq_true] at h
  rcases h with h | h | h | h | h | h
  · exact absurd h hs
  all_goals subst h; exact ⟨rfl, rfl, by decide, by decide, by decide, by decide, rfl,
    by decide, by decide⟩

/-- The unrecognized-token loop consumes every non-stopping character. -/
theorem scanWrong_all (l : List Char) (h : ∀ x ∈ l, isStopChar x = false) :
    scanWrong l = (l, []) := by
  induction l with
  | nil => rfl
  | cons c rest ih =>
      have hc := h c (by simp)
      have hr := ih (fun x hx => h x (by simp [hx]))
      simp [scanWrong, hc, hr]

/-- On a stream of non-space whitespace characters, `get_next_token` takes
the unrecognized-token path, consumes everything, and reports failure. -/
theorem get_next_token_ws (c : Char) (rest : List Char)
    (hc : pyWsChar c = true) (hcs : c ≠ ' ')
    (hr : ∀ x ∈ rest, pyWsChar x = true ∧ x ≠ ' ') :
    get_next_token (c :: rest) = .ok (.sym (String.mk (c :: rest)), false, []) := by
  obtain ⟨_, hob, hns, hnt, hnc, hnl, hnd, hndot, _⟩ := ws_char_cases c hc hcs
  have hstop : ∀ x ∈ rest, isStopChar x = false := by
    intro x hx
    exact (ws_char_cases x (hr x hx).1 (hr x hx).2).1
  simp [get_next_token, hob, hns, hnt, hnc, hnl, hnd, hndot, wrongFrom, scanWrong_all rest hstop]

/-- Outcomes of the `try` body: status `0`, or status `1` paired with the
value `0`. -/
theorem calcBody_status (s : String) (st : Int) (v : Option Val)
    (h : calcBody s = .ok (st, v)) : st = 0 ∨ (st = 1 ∧ v = some (.vInt 0)) := by
  unfold calcBody at h
  cases hg : get_tokens s with
  | error e =>
      rw [hg, except_bind_error] at h
      exact Except.noConfusion h
  | ok tokens =>
      rw [hg, except_bind_ok] at h
      by_cases ht : tokens = []
      · rw [if_pos ht] at h
        have h2 := Except.ok.inj h
        exact Or.inr ⟨(Prod.ext_iff.mp h2).1.symm, (Prod.ext_iff.mp h2).2.symm⟩
      · rw [if_neg ht] at h
        cases hc : check_correctness tokens with
        | error e =>
            rw [hc, except_bind_error] at h
            exact Except.noConfusion h
        | ok okb =>
            rw [hc, except_bind_ok] at h
            by_cases hok : okb = true
            · rw [hok] at h
              simp only [Bool.not_true, reduceIte] at h
              cases he : evaluate tokens with
              | error e =>
                  rw [he, except_bind_error] at h
                  exact Except.noConfusion h
              | ok r =>
                  rw [he, except_bind_ok] at h
                  have h2 := Except.ok.inj h
                  exact Or.inl (Prod.ext_iff.mp h2).1.symm
            · simp only [Bool.not_eq_true] at hok
              rw [hok] at h
              rw [if_pos (by simp)] at h
              have h2 := Except.ok.inj h
              exact Or.inr ⟨(Prod.ext_iff.mp h2).1.symm, (Prod.ext_iff.mp h2).2.symm⟩

/-- C10: every input consisting only of whitespace — or of whitespace with a
single trailing `=` — yields `(InvalidExpression, 0)`; and on every failure
path of `calculate` (any status other than `Success`) the returned value is
the integer `0`, never an absent value. -/
theorem calculate_whitespace_and_failure_value :
    (∀ s : String,
        ((∀ c ∈ s.data, pyWsChar c = true) ∨
         (∃ w, s.data = w ++ ['='] ∧ ∀ c ∈ w, pyWsChar c = true)) →
        calculate s = .ok (1, some (.vInt 0))) ∧
    (∀ (s : String) (st : Int) (v : Option Val),
        calculate s = .ok (st, v) → st ≠ 0 → v = some (.vInt 0)) := by
  constructor
  · intro s hs
    have hjunk : ∀ (l : List Char), (∀ x ∈ l, pyWsChar x = true ∧ x ≠ ' ') →
        (if l = [] then Except.ok [] else gtLoop (l.length + 1) l) = .ok ([] : List Tok) := by
      intro l hl
      cases l with
      | nil => rfl
      | cons c rest =>
          have hc := hl c (by simp)
          have hg := get_next_token_ws c rest hc.1 hc.2 (fun x hx => hl x (by simp [hx]))
          rw [if_neg (by simp)]
          simp only [List.length_cons]
          simp [gtLoop, hg, except_bind_ok]
    have key : get_tokens s = .ok [] := by
      rcases hs with hws | ⟨w, hsplit, hws⟩
      · have hlast : (s.data.filter (fun c => c ≠ ' ')).getLast? ≠ some '=' := by
          intro hl
          have hmem : '=' ∈ s.data.filter (fun c => c ≠ ' ') := by
            rcases List.getLast?_eq_some_iff.mp hl with ⟨l2, hl2⟩
            rw [hl2]; simp
          rw [List.mem_filter] at hmem
          have h2 := hws '=' hmem.1
          simp [pyWsChar] at h2
        have hall : ∀ x ∈ s.data.filter (fun c => c ≠ ' '), pyWsChar x = true ∧ x ≠ ' ' := by
          intro x hx
          rw [List.mem_filter] at hx
          exact ⟨hws x hx.1, by simpa using hx.2⟩
        have h2 := hjunk _ hall
        simp only [get_tokens, if_neg hlast]
        exact h2
      · have hfilter : s.data.filter (fun c => c ≠ ' ')
            = w.filter (fun c => c ≠ ' ') ++ ['='] := by
          rw [hsplit, List.filter_append]
          simp
        have hall : ∀ x ∈ w.filter (fun c => c ≠ ' '), pyWsChar x = true ∧ x ≠ ' ' := by
          intro x hx
          rw [List.mem_filter] at hx
          exact ⟨hws x hx.1, by simpa using hx.2⟩
        have h2 := hjunk _ hall
        simp only [get_tokens, hfilter]
        rw [if_pos (List.getLast?_concat _), List.dropLast_concat]
        exact h2
    have hbody : calcBody s = .ok (1, some (.vInt 0)) := by
      unfold calcBody
      rw [key, except_bind_ok]
      simp
    simp [calculate, hbody]
  · intro s st v h hst
    unfold calculate at h
    cases hb : calcBody s with
    | ok p =>
        rw [hb] at h
        have hpv : p = (st, v) := Except.ok.inj h
        rcases calcBody_status s st v (hpv ▸ hb) with h0 | h1
        · exact absurd h0 hst
        · exact h1.2
    | error e =>
        rw [hb] at h
        cases e <;> simp_all

/-- C10 witness: the two parts applied at the concrete inputs `" \t"` and
`"1/0"` (a failure path with status `3`). -/
theorem calculate_whitespace_and_failure_value_witness :
    calculate " \t" = .ok (1, some (.vInt 0)) ∧
    (some (Val.vInt 0) : Option Val) = some (Val.vInt 0) :=
  ⟨calculate_whitespace_and_failure_value.1 " \t" (Or.inl (by decide)),
   calculate_whitespace_and_failure_value.2 "1/0" 3 (some (.vInt 0)) (by decide) (by decide)⟩

/-! ## C4: numeric-literal conversion -/

/-- The digit-count worker agrees with `Nat.log` given enough fuel. -/
theorem decDigitsAux_eq_log (f : Nat) :
    ∀ n, n ≤ f → decDigitsAux f n = Nat.log 10 n + 1 := by
  induction f with
  | zero =>
      intro n h
      interval_cases n
      simp [decDigitsAux]
  | succ f ih =>
      intro n h
      have hstep : decDigitsAux (f + 1) n
          = if n < 10 then 1 else decDigitsAux f (n / 10) + 1 := rfl
      by_cases h10 : n < 10
      · have hlog : Nat.log 10 n = 0 := Nat.log_eq_zero_iff.mpr (Or.inl h10)
        rw [hstep, if_pos h10, hlog]
      · push_neg at h10
        have hrec : n / 10 ≤ f := by
          have : n / 10 < n := Nat.div_lt_self (by omega) (by omega)
          omega
        have hlog := Nat.log_of_one_lt_of_le (by norm_num) h10
        rw [hstep, if_neg (by omega), ih (n / 10) hrec, hlog]

/-- `decDigits` is `log10 + 1`. -/
theorem decDigits_eq_log (n : Nat) : decDigits n = Nat.log 10 n + 1 :=
  decDigitsAux_eq_log n n le_rfl

/-- Lower digit bound: `10 ^ (digits - 1) ≤ n` for positive `n`. -/
theorem decDigits_lower (n : Nat) (hn : n ≠ 0) : 10 ^ (decDigits n - 1) ≤ n := by
  rw [decDigits_eq_log]
  simpa using Nat.pow_log_le_self 10 hn

/-- Upper digit bound: `n < 10 ^ digits`. -/
theorem decDigits_upper (n : Nat) : n < 10 ^ decDigits n := by
  rw [decDigits_eq_log]
  exact Nat.lt_pow_succ_log_self (by norm_num) n

/-- Digit counts are monotone. -/
theorem decDigits_mono {m n : Nat} (h : m ≤ n) : decDigits m ≤ decDigits n := by
  rw [decDigits_eq_log, decDigits_eq_log]
  exact Nat.succ_le_succ (Nat.log_mono_right h)

/-- `n < 10 ^ k` bounds the digit count by `k` (for positive `n`, `k`). -/
theorem decDigits_le_of_lt_pow {n k : Nat} (hk : k ≠ 0) (h : n < 10 ^ k) :
    decDigits n ≤ k := by
  rw [decDigits_eq_log]
  rcases Nat.eq_zero_or_pos n with h0 | h0
  · subst h0; simp [Nat.log_zero_right]; omega
  · have := (Nat.lt_pow_iff_log_lt (by norm_num : 1 < 10) (by omega : n ≠ 0)).mp h
    omega

/-- Digits of `n * 10 ^ j` for positive `n`. -/
theorem decDigits_mul_pow10 (n j : Nat) (hn : n ≠ 0) :
    decDigits (n * 10 ^ j) = decDigits n + j := by
  induction j with
  | zero => simp
  | succ j ih =>
      rw [decDigits_eq_log] at ih ⊢
      have hmul : n * 10 ^ (j + 1) = n * 10 ^ j * 10 := by ring
      rw [hmul, Nat.log_mul_base (by norm_num) (by positivity)]
      omega

/-- Digits of a power of ten. -/
theorem decDigits_pow10 (k : Nat) : decDigits (10 ^ k) = k + 1 := by
  rw [decDigits_eq_log, Nat.log_pow (by norm_num)]

/-- The adjusted exponent of `p / 10^k` is `digits p - k - 1`. -/
theorem ratAdjExp_pow10 (p k : Nat) (hp : p ≠ 0) :
    ratAdjExp p (10 ^ k) = (decDigits p : Int) - k - 1 := by
  have hlow := decDigits_lower p hp
  have hdp : 1 ≤ decDigits p := by rw [decDigits_eq_log]; omega
  unfold ratAdjExp
  rw [decDigits_pow10 k]
  have he0 : (decDigits p : Int) - ((k + 1 : Nat) : Int) = (decDigits p : Int) - k - 1 := by
    push_cast; ring
  rw [he0]
  by_cases hcase : 0 ≤ (decDigits p : Int) - k - 1
  · have htn : ((decDigits p : Int) - k - 1).toNat = decDigits p - k - 1 := by omega
    have hge : pow10 (decDigits p - k - 1) * 10 ^ k ≤ p := by
      have hsplit : decDigits p - k - 1 + k = decDigits p - 1 := by omega
      calc pow10 (decDigits p - k - 1) * 10 ^ k
          = 10 ^ (decDigits p - k - 1 + k) := by rw [pow10, ← pow_add]
        _ = 10 ^ (decDigits p - 1) := by rw [hsplit]
        _ ≤ p := hlow
    have hcond : ¬(if 0 ≤ (decDigits p : Int) - k - 1
        then p < pow10 ((decDigits p : Int) - k - 1).toNat * 10 ^ k
        else p * pow10 (((k + 1 : Nat) : Int) - (decDigits p : Int)).toNat < 10 ^ k) := by
      rw [if_pos hcase, htn]
      exact not_lt.mpr hge
    rw [if_neg hcond]
  · have htn : (((k + 1 : Nat) : Int) - (decDigits p : Int)).toNat = k + 1 - decDigits p := by
      omega
    have hge : 10 ^ k ≤ p * pow10 (k + 1 - decDigits p) := by
      have hsplit : decDigits p - 1 + (k + 1 - decDigits p) = k := by omega
      calc 10 ^ k = 10 ^ (decDigits p - 1 + (k + 1 - decDigits p)) := by rw [hsplit]
        _ = 10 ^ (decDigits p - 1) * pow10 (k + 1 - decDigits p) := by rw [pow10, pow_add]
        _ ≤ p * pow10 (k + 1 - decDigits p) := by
            exact Nat.mul_le_mul_right _ hlow
    have hcond : ¬(if 0 ≤ (decDigits p : Int) - k - 1
        then p < pow10 ((decDigits p : Int) - k - 1).toNat * 10 ^ k
        else p * pow10 (((k + 1 : Nat) : Int) - (decDigits p : Int)).toNat < 10 ^ k) := by
      rw [if_neg hcase, htn]
      exact not_lt.mpr hge
    rw [if_neg hcond]

/-- Half-even rounding with a zero remainder keeps the quotient. -/
theorem halfEvenNat_zero (q den : Nat) (h : 0 < den) : halfEvenNat q 0 den = q := by
  unfold halfEvenNat
  rw [if_pos (by omega)]

/-- Coefficients below the precision are not rounded. -/
theorem decFix_small (c : Int) (e : Int) (h : c.natAbs < pow10 28) :
    decFix c e = ⟨c, e⟩ := by
  simp only [decFix]
  rw [if_pos h]

/-- Rounding a coefficient `N * 10 ^ j` with `N < 10 ^ 28` is exact: only
trailing zeros are dropped (remainder zero, so half-even keeps the value). -/
theorem decFix_mul_pow10 (N j : Nat) (e : Int) (hN0 : N ≠ 0) (hN : N < 10 ^ 28) :
    decFix ((N : Int) * 10 ^ j) e =
      ⟨(N : Int) * 10 ^ (min j (28 - decDigits N)),
       e + (j : Int) - (min j (28 - decDigits N) : Nat)⟩ := by
  have hdN : decDigits N ≤ 28 := decDigits_le_of_lt_pow (by norm_num) hN
  have hdN1 : 1 ≤ decDigits N := by rw [decDigits_eq_log]; omega
  have habs : ((N : Int) * 10 ^ j).natAbs = N * 10 ^ j := by
    rw [Int.natAbs_mul, Int.natAbs_pow]
    simp
  have hdig : decDigits (N * 10 ^ j) = decDigits N + j := decDigits_mul_pow10 N j hN0
  have hsign : Int.sign ((N : Int) * 10 ^ j) = 1 :=
    Int.sign_eq_one_of_pos (by positivity)
  by_cases hcase : j ≤ 28 - decDigits N
  · have hsmall : N * 10 ^ j < pow10 28 := by
      have h1 : N < 10 ^ decDigits N := decDigits_upper N
      calc N * 10 ^ j < 10 ^ decDigits N * 10 ^ j :=
            (Nat.mul_lt_mul_right (by positivity)).mpr h1
        _ = 10 ^ (decDigits N + j) := by rw [← pow_add]
        _ ≤ 10 ^ 28 := Nat.pow_le_pow_right (by omega) (by omega)
        _ = pow10 28 := rfl
    have hmin : min j (28 - decDigits N) = j := by omega
    simp only [decFix, habs]
    rw [if_pos hsmall, hmin]
    congr 1
    omega
  · push_neg at hcase
    have hmin : min j (28 - decDigits N) = 28 - decDigits N := by omega
    have hlarge : ¬(N * 10 ^ j < pow10 28) := by
      push_neg
      have h1 : 10 ^ (decDigits N - 1) ≤ N := decDigits_lower N hN0
      calc pow10 28 = 10 ^ 28 := rfl
        _ ≤ 10 ^ (decDigits N - 1 + j) := Nat.pow_le_pow_right (by omega) (by omega)
        _ = 10 ^ (decDigits N - 1) * 10 ^ j := by rw [← pow_add]
        _ ≤ N * 10 ^ j := Nat.mul_le_mul_right _ h1
    have hsh : decDigits (N * 10 ^ j) - 28 = decDigits N + j - 28 := by omega
    have hj28 : j - (decDigits N + j - 28) = 28 - decDigits N := by omega
    have hnum : N * 10 ^ j = N * 10 ^ (28 - decDigits N) * pow10 (decDigits N + j - 28) := by
      rw [pow10, mul_assoc, ← pow_add]
      congr 2
      omega
    have hdiv : N * 10 ^ j / pow10 (decDigits N + j - 28) = N * 10 ^ (28 - decDigits N) := by
      rw [hnum]
      exact Nat.mul_div_cancel _ (by rw [pow10]; positivity)
    have hmod : N * 10 ^ j % pow10 (decDigits N + j - 28) = 0 := by
      rw [hnum]
      exact Nat.mul_mod_left _ _
    have hqlt : N * 10 ^ (28 - decDigits N) < pow10 28 := by
      have h1 : N < 10 ^ decDigits N := decDigits_upper N
      calc N * 10 ^ (28 - decDigits N) < 10 ^ decDigits N * 10 ^ (28 - decDigits N) :=
            (Nat.mul_lt_mul_right (by positivity)).mpr h1
        _ = 10 ^ (decDigits N + (28 - decDigits N)) := by rw [← pow_add]
        _ = pow10 28 := by rw [pow10]; congr 1; omega
    simp only [decFix, habs]
    rw [if_neg hlarge, hdig, hdiv, hmod,
        halfEvenNat_zero _ _ (by rw [pow10]; positivity), if_pos hqlt, hsign, hmin]
    simp only [Dec.mk.injEq]
    constructor
    · push_cast
      ring
    · omega

/-- Dividing `R` by `10 ^ k` (both as coefficients) rounds exactly when
`R < 10 ^ 28`: the 28-digit quotient carries the full value. -/
theorem decDivRound_pow10 (R k : Nat) (sign E : Int) (hR0 : R ≠ 0) (hR : R < 10 ^ 28) :
    decDivRound sign R (10 ^ k) E =
      ⟨sign * ((R * 10 ^ (28 - decDigits R) : Nat) : Int),
       E + (decDigits R : Int) - k - 28⟩ := by
  have hdR : decDigits R ≤ 28 := decDigits_le_of_lt_pow (by norm_num) hR
  have hdR1 : 1 ≤ decDigits R := by rw [decDigits_eq_log]; omega
  have hce : (0 : Int) ≤ 27 - ((decDigits R : Int) - k - 1) := by omega
  have htn : ((27 : Int) - ((decDigits R : Int) - k - 1)).toNat = 28 + k - decDigits R := by
    omega
  have hnum : R * pow10 (28 + k - decDigits R) = R * 10 ^ (28 - decDigits R) * 10 ^ k := by
    rw [pow10, mul_assoc, ← pow_add]
    congr 2
    omega
  have hdiv : R * 10 ^ (28 - decDigits R) * 10 ^ k / 10 ^ k = R * 10 ^ (28 - decDigits R) :=
    Nat.mul_div_cancel _ (by positivity)
  have hmod : R * 10 ^ (28 - decDigits R) * 10 ^ k % 10 ^ k = 0 := Nat.mul_mod_left _ _
  have hqlt : R * 10 ^ (28 - decDigits R) < pow10 28 := by
    have h1 : R < 10 ^ decDigits R := decDigits_upper R
    calc R * 10 ^ (28 - decDigits R) < 10 ^ decDigits R * 10 ^ (28 - decDigits R) :=
          (Nat.mul_lt_mul_right (by positivity)).mpr h1
      _ = 10 ^ (decDigits R + (28 - decDigits R)) := by rw [← pow_add]
      _ = pow10 28 := by rw [pow10]; congr 1; omega
  simp only [decDivRound]
  rw [ratAdjExp_pow10 R k hR0, if_pos hce, htn]
  simp only [hnum, hdiv, hmod]
  rw [halfEvenNat_zero _ _ (by positivity), if_pos hqlt]
  simp only [Dec.mk.injEq]
  constructor
  · trivial
  · omega

/-- `Decimal(R) / Decimal(10 ^ k)` is exact for `R < 10 ^ 28`. -/
theorem decDiv_pow10_exact (R k : Nat) (hR0 : R ≠ 0) (hR : R < 10 ^ 28) :
    decDiv ⟨(R : Int), 0⟩ ⟨((10 : Nat) ^ k : Nat), 0⟩ =
      .ok ⟨((R * 10 ^ (28 - decDigits R) : Nat) : Int),
           (decDigits R : Int) - k - 28⟩ := by
  have hdR : decDigits R ≤ 28 := decDigits_le_of_lt_pow (by norm_num) hR
  have hdR1 : 1 ≤ decDigits R := by rw [decDigits_eq_log]; omega
  have hb : ¬(((10 : Nat) ^ k : Nat) : Int) = 0 := by positivity
  have ha : ¬(R : Int) = 0 := by exact_mod_cast hR0
  simp only [decDiv]
  rw [if_neg hb, if_neg ha]
  have hsgn : Int.sign (R : Int) * Int.sign (((10 : Nat) ^ k : Nat) : Int) = 1 := by
    rw [Int.sign_eq_one_of_pos (by exact_mod_cast Nat.pos_of_ne_zero hR0),
        Int.sign_eq_one_of_pos (by positivity)]
    norm_num
  have habs1 : (R : Int).natAbs = R := Int.natAbs_ofNat R
  have habs2 : ((((10 : Nat) ^ k : Nat)) : Int).natAbs = 10 ^ k := Int.natAbs_ofNat _
  rw [hsgn, habs1, habs2, decDivRound_pow10 R k 1 (0 - 0) hR0 hR]
  have htrap : ¬(((1 : Int) * ((R * 10 ^ (28 - decDigits R) : Nat) : Int) ≠ 0) ∧
      999999 < decAdjExp ⟨1 * ((R * 10 ^ (28 - decDigits R) : Nat) : Int),
        0 - 0 + (decDigits R : Int) - k - 28⟩) := by
    rintro ⟨-, hlt⟩
    rw [decAdjExp] at hlt
    simp only at hlt
    have habs3 : ((1 : Int) * ((R * 10 ^ (28 - decDigits R) : Nat) : Int)).natAbs
        = R * 10 ^ (28 - decDigits R) := by
      rw [one_mul, Int.natAbs_ofNat]
    rw [habs3, decDigits_mul_pow10 R (28 - decDigits R) hR0] at hlt
    omega
  rw [decTrap, if_neg htrap]
  simp only [Except.ok.injEq, Dec.mk.injEq]
  constructor
  · rw [one_mul]
  · omega

/-- Adding the integer part to the exactly-divided fractional part is exact
whenever the combined digits fit the 28-digit precision. -/
theorem decAdd_int_frac_exact (L R k : Nat) (hR0 : R ≠ 0)
    (hN : L * 10 ^ k + R < 10 ^ 28) :
    decAdd ⟨(L : Int), 0⟩
      ⟨((R * 10 ^ (28 - decDigits R) : Nat) : Int), (decDigits R : Int) - k - 28⟩ =
    .ok ⟨(((L * 10 ^ k + R) * 10 ^ (28 - decDigits (L * 10 ^ k + R)) : Nat) : Int),
         (decDigits (L * 10 ^ k + R) : Int) - k - 28⟩ := by
  have hRN : R ≤ L * 10 ^ k + R := Nat.le_add_left R _
  have hN0 : L * 10 ^ k + R ≠ 0 := by
    intro h0
    exact hR0 (by omega)
  have hdR : decDigits R ≤ 28 :=
    decDigits_le_of_lt_pow (by norm_num) (lt_of_le_of_lt hRN hN)
  have hdR1 : 1 ≤ decDigits R := by rw [decDigits_eq_log]; omega
  have hdN : decDigits (L * 10 ^ k + R) ≤ 28 := decDigits_le_of_lt_pow (by norm_num) hN
  have hdRN : decDigits R ≤ decDigits (L * 10 ^ k + R) := decDigits_mono hRN
  have hm : min (0 : Int) ((decDigits R : Int) - k - 28) = (decDigits R : Int) - k - 28 := by
    omega
  have htn1 : ((0 : Int) - ((decDigits R : Int) - k - 28)).toNat = k + 28 - decDigits R := by
    omega
  have htn2 : (((decDigits R : Int) - k - 28) - ((decDigits R : Int) - k - 28)).toNat = 0 := by
    omega
  simp only [decAdd, hm, htn1, htn2]
  have hsum : (L : Int) * ((pow10 (k + 28 - decDigits R) : Nat) : Int) +
      ((R * 10 ^ (28 - decDigits R) : Nat) : Int) * ((pow10 0 : Nat) : Int) =
      (((L * 10 ^ k + R) : Nat) : Int) * 10 ^ (28 - decDigits R) := by
    have hsplit : k + 28 - decDigits R = k + (28 - decDigits R) := by omega
    rw [pow10, pow10, hsplit, pow_add]
    push_cast
    ring
  rw [hsum, decFix_mul_pow10 (L * 10 ^ k + R) (28 - decDigits R) _ hN0 hN]
  have hmin : min (28 - decDigits R) (28 - decDigits (L * 10 ^ k + R))
      = 28 - decDigits (L * 10 ^ k + R) := by omega
  rw [hmin]
  have htrap : ¬((((L * 10 ^ k + R) : Nat) : Int) *
        10 ^ (28 - decDigits (L * 10 ^ k + R)) ≠ 0 ∧
      999999 < decAdjExp ⟨(((L * 10 ^ k + R) : Nat) : Int) *
          10 ^ (28 - decDigits (L * 10 ^ k + R)),
        (decDigits R : Int) - k - 28 + (28 - decDigits R : Nat) -
          ((28 - decDigits (L * 10 ^ k + R) : Nat) : Int)⟩) := by
    rintro ⟨-, hlt⟩
    rw [decAdjExp] at hlt
    simp only at hlt
    have habs : ((((L * 10 ^ k + R) : Nat) : Int) *
        10 ^ (28 - decDigits (L * 10 ^ k + R))).natAbs
        = (L * 10 ^ k + R) * 10 ^ (28 - decDigits (L * 10 ^ k + R)) := by
      rw [show ((10 : Int) ^ (28 - decDigits (L * 10 ^ k + R)))
            = (((10 ^ (28 - decDigits (L * 10 ^ k + R)) : Nat)) : Int) by push_cast; ring,
          ← Nat.cast_mul, Int.natAbs_ofNat]
    rw [habs, decDigits_mul_pow10 _ _ hN0] at hlt
    omega
  rw [decTrap, if_neg htrap]
  simp only [Except.ok.injEq, Dec.mk.injEq]
  constructor
  · push_cast
    ring
  · omega

/-- The numeric value of a digit string, most significant digit first. -/
def digitsValN (l : List Char) : Nat :=
  l.foldl (fun a c => a * 10 + (c.toNat - 48)) 0

/-- The length of the fractional part of a numeric literal (0 when there is
no dot). -/
def litFracLen (cs : List Char) : Nat :=
  ((cs.dropWhile (fun c => c ≠ '.')).drop 1).length

/-- The exact base-10 value a numeric literal denotes: its digits (dot
removed) over ten to the number of fractional digits. -/
def litVal (cs : List Char) : ℚ :=
  (digitsValN (cs.filter (fun c => c ≠ '.')) : ℚ) / 10 ^ litFracLen cs

/-- A decimal digit's code point lies between 48 and 57. -/
theorem digit_char_toNat (c : Char) (h : c.isDigit = true) :
    48 ≤ c.toNat ∧ c.toNat ≤ 57 := by
  simp only [Char.isDigit, Bool.and_eq_true, decide_eq_true_eq] at h
  obtain ⟨h1, h2⟩ := h
  exact ⟨UInt32.le_toNat_of_le (by decide) h1, UInt32.toNat_le_of_le (by decide) h2⟩

/-- A digit is not a dot. -/
theorem digit_char_ne_dot (c : Char) (h : c.isDigit = true) : c ≠ '.' := by
  intro h2
  rw [h2] at h
  exact absurd h (by decide)

/-- Seeding the digit fold scales the seed by ten to the length. -/
theorem digitsFoldN_init (cs : List Char) :
    ∀ a : Nat, cs.foldl (fun x c => x * 10 + (c.toNat - 48)) a
      = a * 10 ^ cs.length + digitsValN cs := by
  induction cs with
  | nil => intro a; simp [digitsValN]
  | cons c rest ih =>
      intro a
      have h1 : (c :: rest).foldl (fun x c => x * 10 + (c.toNat - 48)) a
          = rest.foldl (fun x c => x * 10 + (c.toNat - 48)) (a * 10 + (c.toNat - 48)) := rfl
      have h2 : digitsValN (c :: rest)
          = rest.foldl (fun x c => x * 10 + (c.toNat - 48)) (0 * 10 + (c.toNat - 48)) := rfl
      rw [h1, ih, h2, ih]
      simp only [List.length_cons, pow_succ]
      ring

/-- The `Int`-valued digit fold of `gidAux` matches the `Nat` fold on digit
strings. -/
theorem digitsFoldInt_eq (cs : List Char) (hd : ∀ c ∈ cs, c.isDigit = true) :
    ∀ a : Nat, cs.foldl (fun x c => x * 10 + ((c.toNat : Int) - 48)) (a : Int)
      = ((cs.foldl (fun x c => x * 10 + (c.toNat - 48)) a : Nat) : Int) := by
  induction cs with
  | nil => intro a; rfl
  | cons c rest ih =>
      intro a
      have h48 := (digit_char_toNat c (hd c (by simp))).1
      have hstep : (a : Int) * 10 + ((c.toNat : Int) - 48)
          = ((a * 10 + (c.toNat - 48) : Nat) : Int) := by
        push_cast [Nat.cast_sub h48]
        ring
      have h1 : (c :: rest).foldl (fun x c => x * 10 + ((c.toNat : Int) - 48)) (a : Int)
          = rest.foldl (fun x c => x * 10 + ((c.toNat : Int) - 48))
              ((a : Int) * 10 + ((c.toNat : Int) - 48)) := rfl
      rw [h1, hstep, ih (fun x hx => hd x (by simp [hx]))]
      rfl

/-- `gidAux` before any dot accumulates into `left_of_decimal`. -/
theorem gidAux_no_dot (cs : List Char) (h : ∀ c ∈ cs, c ≠ '.') :
    ∀ l r db : Int, gidAux cs l r false db
      = (cs.foldl (fun a c => a * 10 + ((c.toNat : Int) - 48)) l, r, false, db) := by
  induction cs with
  | nil => intro l r db; rfl
  | cons c rest ih =>
      intro l r db
      have hc := h c (by simp)
      simp only [gidAux, hc, if_false, reduceIte, Bool.false_eq_true]
      exact ih (fun x hx => h x (by simp [hx])) _ r db

/-- `gidAux` after the dot accumulates into `right_of_decimal` and scales
`divide_by` by ten per digit. -/
theorem gidAux_dot_seen (cs : List Char) (h : ∀ c ∈ cs, c ≠ '.') :
    ∀ l r db : Int, gidAux cs l r true db
      = (l, cs.foldl (fun a c => a * 10 + ((c.toNat : Int) - 48)) r, true,
         db * 10 ^ cs.length) := by
  induction cs with
  | nil => intro l r db; simp [gidAux]
  | cons c rest ih =>
      intro l r db
      have hc := h c (by simp)
      simp only [gidAux, hc, if_false, reduceIte]
      rw [ih (fun x hx => h x (by simp [hx])) l _ (db * 10)]
      simp only [Prod.mk.injEq, List.length_cons, pow_succ]
      refine ⟨trivial, rfl, trivial, by ring⟩

/-- `gidAux` processes an appended list by processing the pieces in turn. -/
theorem gidAux_append (xs : List Char) :
    ∀ (ys : List Char) (l r : Int) (ds : Bool) (db : Int),
      gidAux (xs ++ ys) l r ds db =
        gidAux ys (gidAux xs l r ds db).1 (gidAux xs l r ds db).2.1
          (gidAux xs l r ds db).2.2.1 (gidAux xs l r ds db).2.2.2 := by
  induction xs with
  | nil => intro ys l r ds db; rfl
  | cons c rest ih =>
      intro ys l r ds db
      by_cases hc : c = '.'
      · simp only [List.cons_append, gidAux, hc, reduceIte]
        exact ih ys l r true db
      · cases ds with
        | true =>
            simp only [List.cons_append, gidAux, hc, reduceIte]
            exact ih ys l _ true _
        | false =>
            simp only [List.cons_append, gidAux, hc, reduceIte, Bool.false_eq_true]
            exact ih ys _ r false db

/-- Adding a zero fractional part leaves the integer part unchanged. -/
theorem decAdd_int_zero (L : Nat) (hL : L < 10 ^ 28) :
    decAdd ⟨(L : Int), 0⟩ ⟨0, 0⟩ = .ok ⟨(L : Int), 0⟩ := by
  have hfix : decFix ((L : Int) * ((pow10 ((0 - min (0 : Int) 0).toNat) : Nat) : Int)
      + 0 * ((pow10 ((0 - min (0 : Int) 0).toNat) : Nat) : Int)) (min (0 : Int) 0)
      = ⟨(L : Int), 0⟩ := by
    have h1 : (L : Int) * ((pow10 ((0 - min (0 : Int) 0).toNat) : Nat) : Int)
        + 0 * ((pow10 ((0 - min (0 : Int) 0).toNat) : Nat) : Int) = (L : Int) := by
      norm_num [pow10]
    rw [h1, show min (0 : Int) 0 = 0 from rfl]
    exact decFix_small _ _ (by simpa [pow10, Int.natAbs_ofNat] using hL)
  simp only [decAdd, hfix, decTrap]
  rw [if_neg ?hc]
  case hc =>
    rintro ⟨hc0, hlt⟩
    have hL0 : L ≠ 0 := by
      intro h0
      exact hc0 (by simp [h0])
    have hd : decDigits L ≤ 28 := decDigits_le_of_lt_pow (by norm_num) hL
    rw [decAdjExp] at hlt
    simp only [Int.natAbs_ofNat] at hlt
    omega

/-- The value of a coefficient with split-off trailing zeros. -/
theorem decVal_shift (N j : Nat) (E : Int) :
    decVal ⟨((N * 10 ^ j : Nat) : Int), E⟩ = (N : ℚ) * (10 : ℚ) ^ ((j : Int) + E) := by
  unfold decVal
  rw [zpow_add₀ (by norm_num : (10 : ℚ) ≠ 0), zpow_natCast]
  push_cast
  ring

/-- A dot-free digit string converts to the exact Python `int`. -/
theorem gid_no_dot_spec (cs : List Char) (hd : ∀ c ∈ cs, c.isDigit = true) :
    get_int_or_decimal_from_string cs = .ok (.vInt (digitsValN cs)) := by
  unfold get_int_or_decimal_from_string
  rw [gidAux_no_dot cs (fun c hc => digit_char_ne_dot c (hd c hc)) 0 0 1]
  have hfold : cs.foldl (fun a c => a * 10 + ((c.toNat : Int) - 48)) (0 : Int)
      = ((digitsValN cs : Nat) : Int) := by
    have h := digitsFoldInt_eq cs hd 0
    simpa [digitsValN] using h
  rw [hfold]

/-- A dotted digit string converts through one context division and one
context addition; with at most 28 combined significant digits both are
exact. -/
theorem gid_dot_spec (a b : List Char) (hda : ∀ c ∈ a, c.isDigit = true)
    (hdb : ∀ c ∈ b, c.isDigit = true)
    (hN : digitsValN a * 10 ^ b.length + digitsValN b < 10 ^ 28) :
    ∃ d : Dec, get_int_or_decimal_from_string (a ++ '.' :: b) = .ok (.vDec d) ∧
      decVal d = ((digitsValN a * 10 ^ b.length + digitsValN b : Nat) : ℚ)
        / 10 ^ b.length := by
  have hpow : (0 : Nat) < 10 ^ b.length := by positivity
  have hL : digitsValN a < 10 ^ 28 := by
    have h1 : digitsValN a * 1 ≤ digitsValN a * 10 ^ b.length :=
      Nat.mul_le_mul_left _ hpow
    omega
  have hfa : a.foldl (fun x c => x * 10 + ((c.toNat : Int) - 48)) (0 : Int)
      = ((digitsValN a : Nat) : Int) := by
    simpa [digitsValN] using digitsFoldInt_eq a hda 0
  have hfb : b.foldl (fun x c => x * 10 + ((c.toNat : Int) - 48)) (0 : Int)
      = ((digitsValN b : Nat) : Int) := by
    simpa [digitsValN] using digitsFoldInt_eq b hdb 0
  have hstate : gidAux (a ++ '.' :: b) 0 0 false 1
      = ((digitsValN a : Int), (digitsValN b : Int), true, (1 : Int) * 10 ^ b.length) := by
    rw [gidAux_append a ('.' :: b) 0 0 false 1,
        gidAux_no_dot a (fun c hc => digit_char_ne_dot c (hda c hc)) 0 0 1]
    dsimp only
    rw [hfa]
    have hstep : gidAux ('.' :: b) ((digitsValN a : Nat) : Int) 0 false 1
        = gidAux b ((digitsValN a : Nat) : Int) 0 true 1 := by
      simp [gidAux]
    rw [hstep, gidAux_dot_seen b (fun c hc => digit_char_ne_dot c (hdb c hc)) _ 0 1, hfb]
  have hbranch : get_int_or_decimal_from_string (a ++ '.' :: b)
      = (do
          let frac ← decDiv (decFromInt ((digitsValN b : Nat) : Int))
            (decFromInt ((1 : Int) * 10 ^ b.length))
          Except.map Val.vDec (decAdd (decFromInt ((digitsValN a : Nat) : Int)) frac)) := by
    unfold get_int_or_decimal_from_string
    rw [hstate]
  have hdb10 : decFromInt ((1 : Int) * 10 ^ b.length)
      = (⟨(((10 : Nat) ^ b.length : Nat) : Int), 0⟩ : Dec) := by
    unfold decFromInt
    simp only [Dec.mk.injEq]
    constructor
    · push_cast
      ring
    · trivial
  by_cases hb0 : digitsValN b = 0
  · -- zero fractional digits value: 0 / 10^k = 0, then L + 0
    have hdiv : decDiv (decFromInt ((digitsValN b : Nat) : Int))
        (decFromInt ((1 : Int) * 10 ^ b.length)) = .ok ⟨0, 0⟩ := by
      rw [hb0, hdb10]
      unfold decDiv decFromInt
      rw [if_neg (by positivity)]
      norm_num
    refine ⟨⟨(digitsValN a : Int), 0⟩, ?_, ?_⟩
    · rw [hbranch, hdiv, except_bind_ok]
      have hadd := decAdd_int_zero (digitsValN a) hL
      unfold decFromInt
      rw [hadd]
      rfl
    · unfold decVal
      rw [hb0]
      push_cast
      rw [zpow_zero]
      field_simp
  · -- nonzero fraction: exact division, then exact addition
    have hRlt : digitsValN b < 10 ^ 28 := by omega
    have hdN : decDigits (digitsValN a * 10 ^ b.length + digitsValN b) ≤ 28 :=
      decDigits_le_of_lt_pow (by norm_num) hN
    have hdiv := decDiv_pow10_exact (digitsValN b) b.length hb0 hRlt
    have hadd := decAdd_int_frac_exact (digitsValN a) (digitsValN b) b.length hb0 hN
    refine ⟨⟨(((digitsValN a * 10 ^ b.length + digitsValN b)
        * 10 ^ (28 - decDigits (digitsValN a * 10 ^ b.length + digitsValN b)) : Nat) : Int),
        (decDigits (digitsValN a * 10 ^ b.length + digitsValN b) : Int) - b.length - 28⟩,
        ?_, ?_⟩
    · rw [hbranch, hdb10]
      unfold decFromInt
      rw [hdiv, except_bind_ok, hadd]
      rfl
    · rw [decVal_shift]
      have hexp : ((28 - decDigits (digitsValN a * 10 ^ b.length + digitsValN b) : Nat) : Int)
          + ((decDigits (digitsValN a * 10 ^ b.length + digitsValN b) : Int)
             - b.length - 28) = -(b.length : Int) := by
        omega
      rw [hexp, zpow_neg, zpow_natCast]
      push_cast
      rw [div_eq_mul_inv]

/-- A dot-free literal's exact value is just its digit value. -/
theorem litVal_no_dot (cs : List Char) (hd : ∀ c ∈ cs, c.isDigit = true) :
    litVal cs = (digitsValN cs : ℚ) := by
  unfold litVal litFracLen
  have hfilter : cs.filter (fun c => c ≠ '.') = cs :=
    List.filter_eq_self.mpr (fun c hc => by
      simpa using digit_char_ne_dot c (hd c hc))
  have hdrop : cs.dropWhile (fun c => c ≠ '.') = [] :=
    List.dropWhile_eq_nil_iff.mpr (fun c hc => by
      simpa using digit_char_ne_dot c (hd c hc))
  rw [hfilter, hdrop]
  simp

/-- Dropping up to the dot of a dotted digit string. -/
theorem dropWhile_digits_dot (a rest : List Char) (h : ∀ c ∈ a, c.isDigit = true) :
    (a ++ '.' :: rest).dropWhile (fun c => c ≠ '.') = '.' :: rest := by
  induction a with
  | nil => simp [List.dropWhile]
  | cons c a2 ih =>
      have hc2 : decide (c ≠ '.') = true := by
        simpa using digit_char_ne_dot c (h c (by simp))
      rw [List.cons_append]
      simp only [List.dropWhile_cons, hc2, if_true]
      exact ih (fun x hx => h x (by simp [hx]))

/-- A dotted literal's exact value: all digits over ten to the number of
fractional digits. -/
theorem litVal_dot (a b : List Char) (hda : ∀ c ∈ a, c.isDigit = true)
    (hdb : ∀ c ∈ b, c.isDigit = true) :
    litVal (a ++ '.' :: b)
      = ((digitsValN a * 10 ^ b.length + digitsValN b : Nat) : ℚ) / 10 ^ b.length := by
  unfold litVal litFracLen
  have hfa : a.filter (fun c => c ≠ '.') = a :=
    List.filter_eq_self.mpr (fun c hc => by
      simpa using digit_char_ne_dot c (hda c hc))
  have hfb : b.filter (fun c => c ≠ '.') = b :=
    List.filter_eq_self.mpr (fun c hc => by
      simpa using digit_char_ne_dot c (hdb c hc))
  have hfilter : (a ++ '.' :: b).filter (fun c => c ≠ '.') = a ++ b := by
    rw [List.filter_append, hfa, List.filter_cons_of_neg (by simp), hfb]
  have hvalue : digitsValN (a ++ b) = digitsValN a * 10 ^ b.length + digitsValN b := by
    unfold digitsValN
    rw [List.foldl_append]
    have h := digitsFoldN_init b (digitsValN a)
    unfold digitsValN at h
    exact h
  rw [hfilter, hvalue, dropWhile_digits_dot a b hda]
  simp

/-- C4 amended: the digit-accumulating conversion is exact for every
dot-free literal of any length (the result stays a Python `int`), and for
every dotted literal whose combined digits denote a number below `10^28`
(the Decimal context precision of 28 significant digits); longer fractional
literals are rounded by the context (see the counterexample). -/
theorem get_int_or_decimal_exactness :
    (∀ cs : List Char, (∀ c ∈ cs, c.isDigit = true) →
        get_int_or_decimal_from_string cs = .ok (.vInt (digitsValN cs)) ∧
        valQ (.vInt (digitsValN cs)) = litVal cs) ∧
    (∀ a b : List Char, (∀ c ∈ a, c.isDigit = true) → (∀ c ∈ b, c.isDigit = true) →
        digitsValN a * 10 ^ b.length + digitsValN b < 10 ^ 28 →
        ∃ d : Dec, get_int_or_decimal_from_string (a ++ '.' :: b) = .ok (.vDec d) ∧
          decVal d = litVal (a ++ '.' :: b)) := by
  constructor
  · intro cs hd
    refine ⟨gid_no_dot_spec cs hd, ?_⟩
    rw [litVal_no_dot cs hd]
    simp [valQ]
  · intro a b hda hdb hN
    obtain ⟨d, hd1, hd2⟩ := gid_dot_spec a b hda hdb hN
    exact ⟨d, hd1, by rw [hd2, litVal_dot a b hda hdb]⟩

/-- C4 witness: the amended statement applied to the literals `"125"` and
`"12.5"`. -/
theorem get_int_or_decimal_exactness_witness :
    (get_int_or_decimal_from_string "125".data = .ok (.vInt (digitsValN "125".data)) ∧
     valQ (.vInt (digitsValN "125".data)) = litVal "125".data) ∧
    ∃ d : Dec, get_int_or_decimal_from_string (['1', '2'] ++ '.' :: ['5']) = .ok (.vDec d) ∧
      decVal d = litVal (['1', '2'] ++ '.' :: ['5']) :=
  ⟨get_int_or_decimal_exactness.1 "125".data (by decide),
   get_int_or_decimal_exactness.2 ['1', '2'] ['5'] (by decide) (by decide) (by decide)⟩

/-- C4 counterexample: the valid literal `0.` followed by twenty-nine `1`s
(one dot, all digits) converts to a value that is not its exact base-10
value — the context division rounds the 29-significant-digit quotient to 28
digits. -/
theorem get_int_or_decimal_precision_loss :
    get_int_or_decimal_from_string "0.11111111111111111111111111111".data
      = .ok (.vDec ⟨1111111111111111111111111111, -28⟩) ∧
    decVal ⟨1111111111111111111111111111, -28⟩
      ≠ litVal "0.11111111111111111111111111111".data := by
  constructor
  · rfl
  · have h1 : digitsValN (("0.11111111111111111111111111111".data).filter (fun c => c ≠ '.'))
        = 11111111111111111111111111111 := by decide
    have h2 : litFracLen "0.11111111111111111111111111111".data = 29 := by decide
    unfold litVal decVal
    rw [h1, h2]
    have h3 : (10 : ℚ) ^ ((⟨1111111111111111111111111111, -28⟩ : Dec).e)
        = ((10 : ℚ) ^ (28 : Nat))⁻¹ := by
      show (10 : ℚ) ^ (-28 : Int) = _
      rw [zpow_neg]
      norm_num
    rw [h3]
    intro heq
    rw [mul_inv_eq_iff_eq_mul₀ (by positivity), div_mul_eq_mul_div,
        eq_div_iff (by positivity)] at heq
    norm_num at heq

/-! ## C8: the shape of `pure_python_exp` on integer exponents -/

/-- The claim-side `n`-fold product: `prodPow b k` multiplies `k + 1` factors
of `b`, left to right, under the program's multiplication. -/
def prodPow (b : Val) : Nat → Except PyExc Val
  | 0 => .ok b
  | m + 1 => do valMul (← prodPow b m) b

/-- The overflow trap never raises `InvalidOperation`. -/
theorem decTrap_ne_invalidOp (d : Dec) : decTrap d ≠ .error .invalidOperation := by
  unfold decTrap
  split
  · intro h
    injection h with h2
    exact PyExc.noConfusion h2
  · intro h
    exact Except.noConfusion h

/-- If a trapped operation fails, the error is `decimal.Overflow`. -/
theorem decTrap_error_eq (d : Dec) (e : PyExc) (h : decTrap d = .error e) :
    e = .decimalOverflow := by
  unfold decTrap at h
  split at h
  · injection h with h2
    exact h2.symm
  · exact Except.noConfusion h

/-- Wrapping a `Dec` result in `Val.vDec` preserves the error. -/
theorem map_vDec_error (r : Except PyExc Dec) (e : PyExc)
    (h : Except.map Val.vDec r = .error e) : r = .error e := by
  cases r with
  | ok d => exact Except.noConfusion h
  | error e2 =>
      have h2 : (Except.error e2 : Except PyExc Val) = .error e := h
      rw [Except.error.injEq] at h2
      rw [h2]

/-- Multiplication only fails with `decimal.Overflow`. -/
theorem valMul_error_eq (a b : Val) (e : PyExc) (h : valMul a b = .error e) :
    e = .decimalOverflow := by
  cases a <;> cases b <;>
    first
    | exact Except.noConfusion h
    | exact decTrap_error_eq _ e (map_vDec_error _ e h)

/-- Division never raises `InvalidOperation`. -/
theorem decDiv_ne_invalidOp (a b : Dec) : decDiv a b ≠ .error .invalidOperation := by
  unfold decDiv
  split
  · intro h
    injection h with h2
    exact PyExc.noConfusion h2
  · split
    · intro h
      exact Except.noConfusion h
    · exact decTrap_ne_invalidOp _

/-- The `n`-fold product never raises `InvalidOperation`. -/
theorem prodPow_ne_invalidOp (b : Val) : ∀ k, prodPow b k ≠ .error .invalidOperation := by
  intro k
  induction k with
  | zero => exact fun h => Except.noConfusion h
  | succ m ih =>
      intro h
      simp only [prodPow] at h
      cases hm : prodPow b m with
      | error e =>
          rw [hm, except_bind_error] at h
          exact ih (hm.trans h)
      | ok v =>
          rw [hm, except_bind_ok] at h
          exact PyExc.noConfusion (valMul_error_eq v b _ h)

/-- `mapInvalidOperation` only affects the `InvalidOperation` error. -/
theorem mapInvalidOperation_eq_self (r : Except PyExc Val)
    (h : r ≠ .error .invalidOperation) : mapInvalidOperation r = r := by
  cases r with
  | ok v => rfl
  | error e => cases e <;> first | rfl | exact absurd rfl h

/-- One unrolling of the multiplication loop from the rear: running
`k + 1` iterations is running `k` and multiplying once more. -/
theorem pyExpLoop_succ (b : Val) :
    ∀ (k : Nat) (cur : Val),
      pyExpLoop b cur (k + 1) = (do valMul (← pyExpLoop b cur k) b) := by
  intro k
  induction k with
  | zero =>
      intro cur
      simp only [pyExpLoop]
      rw [except_bind_ok]
      cases h : valMul cur b with
      | error e => rw [except_bind_error]
      | ok v => rw [except_bind_ok]
  | succ m ih =>
      intro cur
      simp only [pyExpLoop]
      cases h : valMul cur b with
      | error e => simp only [h, except_bind_error]
      | ok v =>
          simp only [h, except_bind_ok]
          have h2 := ih v
          simp only [pyExpLoop] at h2
          exact h2

/-- The loop of `pure_python_exp`, started on its own base, is the
`n`-fold product. -/
theorem pyExpLoop_eq_prodPow (b : Val) : ∀ k, pyExpLoop b b k = prodPow b k := by
  intro k
  induction k with
  | zero => rfl
  | succ m ih =>
      rw [pyExpLoop_succ b m b, ih]
      simp only [prodPow]

/-- On an `int` base the `n`-fold product is the exact power. -/
theorem prodPow_int (m : Int) : ∀ k, prodPow (.vInt m) k = .ok (.vInt (m ^ (k + 1))) := by
  intro k
  induction k with
  | zero => simp [prodPow]
  | succ j ih =>
      simp only [prodPow, ih, except_bind_ok, valMul]
      rw [← pow_succ]

/-- A positive `int` exponent: the body is the bare multiplication loop. -/
theorem pureExpBody_pos (b : Val) (n : Int) (hn : 0 < n) :
    pureExpBody b (.vInt n) = pyExpLoop b b ((n - 1).toNat) := by
  have h0 : ¬ (n = 0) := by omega
  have h1 : ¬ (n < 0) := by omega
  simp only [pureExpBody, valIsZero, valIsNeg, ceilVal, decide_eq_true_eq,
    if_neg h0, if_neg h1]
  simp [pure_bind, bind_pure]

/-- A negative `int` exponent: the loop on `-n`, then the reciprocal. -/
theorem pureExpBody_neg (b : Val) (n : Int) (hn : n < 0) :
    pureExpBody b (.vInt n) = (do
      let cur ← pyExpLoop b b ((-n - 1).toNat)
      Except.map Val.vDec (decDiv (decFromInt 1) (valToDec cur))) := by
  have h0 : ¬ (n = 0) := by omega
  simp only [pureExpBody, valIsZero, valIsNeg, ceilVal, valNeg, decide_eq_true_eq,
    if_neg h0, if_pos hn]
  simp [pure_bind]

/-- A positive `Decimal` exponent: the loop, then one `decSub` for the
leftover, one direct power, and one closing multiplication. -/
theorem pureExpBody_frac (b : Val) (d : Dec) (hd : 0 < d.c) :
    pureExpBody b (.vDec d) = (do
      let cur ← pyExpLoop b b ((ceilVal (.vDec d) - 1).toNat)
      let leftover ← decSub d (decFromInt ((((ceilVal (.vDec d) - 1).toNat : Nat) : Int) + 1))
      let p ← decPowFrac (valToDec b) leftover
      Except.map Val.vDec (decMul (valToDec cur) p)) := by
  have h0 : ¬ (d.c = 0) := by omega
  have h1 : ¬ (d.c < 0) := by omega
  simp only [pureExpBody, valIsZero, valIsNeg, valToDec, decide_eq_true_eq,
    if_neg h0, if_neg h1]
  simp [bind_pure]

/-- A zero `int` exponent gives `1`, except that a zero `Decimal` base turns
the `InvalidOperation` of `Decimal(0) ** 0` into `OverflowError`. -/
theorem pureExp_zero_exponent (b : Val) :
    pure_python_exp b (.vInt 0) =
      (match b with
       | .vInt _ => .ok (.vInt 1)
       | .vDec d => if d.c = 0 then .error .overflowError else .ok (.vDec ⟨1, 0⟩)) := by
  cases b with
  | vInt a =>
      show mapInvalidOperation (pureExpBody (.vInt a) (.vInt 0)) = .ok (.vInt 1)
      have h1 : pureExpBody (.vInt a) (.vInt 0) = .ok (.vInt (a ^ (0 : Nat))) := by
        simp [pureExpBody, valIsZero, powZero]
      rw [h1, pow_zero]
      rfl
  | vDec d =>
      show mapInvalidOperation (pureExpBody (.vDec d) (.vInt 0)) =
        if d.c = 0 then .error .overflowError else .ok (.vDec ⟨1, 0⟩)
      by_cases hd : d.c = 0
      · have h1 : pureExpBody (.vDec d) (.vInt 0) = .error .invalidOperation := by
          simp [pureExpBody, valIsZero, powZero, hd]
        rw [h1, if_pos hd]
        rfl
      · have h1 : pureExpBody (.vDec d) (.vInt 0) = .ok (.vDec ⟨1, 0⟩) := by
          simp [pureExpBody, valIsZero, powZero, hd]
        rw [h1, if_neg hd]
        rfl

/-- A positive `int` exponent `n` returns the `n`-fold product. -/
theorem pureExp_pos (b : Val) (n : Int) (hn : 0 < n) :
    pure_python_exp b (.vInt n) = prodPow b (n.toNat - 1) := by
  have h2 : (n - 1).toNat = n.toNat - 1 := by omega
  unfold pure_python_exp
  rw [pureExpBody_pos b n hn, h2, pyExpLoop_eq_prodPow]
  exact mapInvalidOperation_eq_self _ (prodPow_ne_invalidOp b _)

/-- On an `int` base a positive `int` exponent is an exact power. -/
theorem pureExp_pos_int (m n : Int) (hn : 0 < n) :
    pure_python_exp (.vInt m) (.vInt n) = .ok (.vInt (m ^ n.toNat)) := by
  rw [pureExp_pos (.vInt m) n hn, prodPow_int m (n.toNat - 1)]
  have h3 : n.toNat - 1 + 1 = n.toNat := by omega
  rw [h3]

/-- A negative `int` exponent is the positive case followed by `1 / result`. -/
theorem pureExp_neg (b : Val) (n : Int) (hn : n < 0) :
    pure_python_exp b (.vInt n) = (do
      let cur ← prodPow b ((-n).toNat - 1)
      Except.map Val.vDec (decDiv (decFromInt 1) (valToDec cur))) := by
  have h2 : (-n - 1).toNat = (-n).toNat - 1 := by omega
  unfold pure_python_exp
  rw [pureExpBody_neg b n hn, h2, pyExpLoop_eq_prodPow]
  apply mapInvalidOperation_eq_self
  cases hp : prodPow b ((-n).toNat - 1) with
  | error e =>
      rw [except_bind_error]
      intro h
      exact prodPow_ne_invalidOp b _ (hp.trans h)
  | ok v =>
      rw [except_bind_ok]
      intro h
      exact decDiv_ne_invalidOp _ _ (map_vDec_error _ _ h)

/-- A positive `Decimal` exponent: `n`-fold product, then exactly one direct
power for the fractional leftover. -/
theorem pureExp_frac (b : Val) (d : Dec) (hd : 0 < d.c) :
    pure_python_exp b (.vDec d) = mapInvalidOperation (do
      let cur ← prodPow b ((ceilVal (.vDec d) - 1).toNat)
      let leftover ← decSub d (decFromInt ((((ceilVal (.vDec d) - 1).toNat : Nat) : Int) + 1))
      let p ← decPowFrac (valToDec b) leftover
      Except.map Val.vDec (decMul (valToDec cur) p)) := by
  unfold pure_python_exp
  rw [pureExpBody_frac b d hd, pyExpLoop_eq_prodPow]

/-- C8: for an `int` exponent `n`, the exponentiation routine returns `1` when
`n = 0` (except on a zero `Decimal` base, where the converted
`InvalidOperation` surfaces as `OverflowError`); the `n`-fold product
`b * b * ... * b`, computed by repeated multiplication, when `n > 0` — on an
`int` base this product is the exact power `b ^ n`; and the reciprocal of the
positive-exponent result when `n < 0`.  A positive non-integer (`Decimal`)
exponent performs the repeated multiplication followed by exactly one direct
power computation on the fractional leftover. -/
theorem pure_python_exp_integer_exponent (b : Val) (n : Int) :
    (n = 0 → pure_python_exp b (.vInt n) =
        (match b with
         | .vInt _ => .ok (.vInt 1)
         | .vDec d => if d.c = 0 then .error .overflowError else .ok (.vDec ⟨1, 0⟩))) ∧
    (0 < n → pure_python_exp b (.vInt n) = prodPow b (n.toNat - 1)) ∧
    (0 < n → ∀ m : Int, b = .vInt m →
        pure_python_exp b (.vInt n) = .ok (.vInt (m ^ n.toNat))) ∧
    (n < 0 → pure_python_exp b (.vInt n) = (do
        let cur ← prodPow b ((-n).toNat - 1)
        Except.map Val.vDec (decDiv (decFromInt 1) (valToDec cur)))) ∧
    (∀ d : Dec, 0 < d.c → pure_python_exp b (.vDec d) = mapInvalidOperation (do
        let cur ← prodPow b ((ceilVal (.vDec d) - 1).toNat)
        let leftover ← decSub d (decFromInt ((((ceilVal (.vDec d) - 1).toNat : Nat) : Int) + 1))
        let p ← decPowFrac (valToDec b) leftover
        Except.map Val.vDec (decMul (valToDec cur) p))) := by
  refine ⟨?_, ?_, ?_, ?_, ?_⟩
  · intro hn
    subst hn
    exact pureExp_zero_exponent b
  · intro hn
    exact pureExp_pos b n hn
  · intro hn m hm
    subst hm
    exact pureExp_pos_int m n hn
  · intro hn
    exact pureExp_neg b n hn
  · intro d hd
    exact pureExp_frac b d hd

/-- C8 witness: the integer-exponent theorem at `2 ** 10`, `2 ** (-2)` and
`Decimal(0) ** 0`. -/
theorem pure_python_exp_integer_exponent_witness :
    pure_python_exp (.vInt 2) (.vInt 10) = .ok (.vInt ((2 : Int) ^ (10 : Int).toNat)) ∧
    pure_python_exp (.vInt 2) (.vInt (-2)) = (do
        let cur ← prodPow (.vInt 2) ((-(-2 : Int)).toNat - 1)
        Except.map Val.vDec (decDiv (decFromInt 1) (valToDec cur))) ∧
    pure_python_exp (.vDec ⟨0, 0⟩) (.vInt 0) = .error .overflowError :=
  ⟨(pure_python_exp_integer_exponent (.vInt 2) 10).2.2.1 (by norm_num) 2 rfl,
   (pure_python_exp_integer_exponent (.vInt 2) (-2)).2.2.2.1 (by norm_num),
   by
     have h := (pure_python_exp_integer_exponent (.vDec ⟨0, 0⟩) 0).1 rfl
     rw [h]
     rfl⟩
